import Mathlib

/-!
# Verification of the Portfolio Tracker MCP tool layer

A shallow embedding of `src/mcp/portfolio_mcp/server.py`: the numeric
formatters, the error classifier, the per-tool input validation, and the
per-tool response formatting, together with proofs of the behavioural
properties stated in the specification.

Python floats are modelled as rationals (`ℚ`); Python's fixed-point string
formatting (`f"{v:,.2f}"` and friends) is modelled by `pyFixed`, which
rounds half-to-even at the requested number of decimals and optionally
groups the integer part in threes with commas.
-/

namespace PortfolioMcp

/-- Decimal digits of `n`, least significant first (`["0"]` for `0`). -/
def natDigitsRev (n : Nat) : List Char :=
  if h : n < 10 then [Nat.digitChar n]
  else Nat.digitChar (n % 10) :: natDigitsRev (n / 10)
  decreasing_by exact Nat.div_lt_self (by omega) (by omega)

/-- Insert a comma after every three characters of a least-significant-first
digit list (the thousands grouping of Python's `,` format flag). -/
def groupRev : List Char → List Char
  | a :: b :: c :: d :: rest => a :: b :: c :: ',' :: groupRev (d :: rest)
  | l => l

/-- Integer-part rendering: decimal digits, grouped in threes when `sep`. -/
def intChars (sep : Bool) (n : Nat) : List Char :=
  if sep then (groupRev (natDigitsRev n)).reverse else (natDigitsRev n).reverse

/-- `abs(value)` (spelled so the kernel can evaluate it on literals). -/
def pyAbs (q : ℚ) : ℚ := if q < 0 then -q else q

theorem pyAbs_eq (q : ℚ) : pyAbs q = |q| := by
  unfold pyAbs
  split
  · exact (abs_of_neg (by assumption)).symm
  · exact (abs_of_nonneg (le_of_not_lt (by assumption))).symm

/-- The floor of a rational, computed from its reduced fraction. -/
def ratFloor (q : ℚ) : Int := q.num / q.den

theorem ratFloor_eq (q : ℚ) : ratFloor q = ⌊q⌋ := Rat.floor_def.symm

/-- Round half to even: the rounding Python applies when formatting a value
to a fixed number of decimals. -/
def roundHalfEven (q : ℚ) : Int :=
  if q - ratFloor q < 1/2 then ratFloor q
  else if 1/2 < q - ratFloor q then ratFloor q + 1
  else if ratFloor q % 2 = 0 then ratFloor q else ratFloor q + 1

/-- Exactly `d` decimal digits of `n < 10^d`, most significant first. -/
def fracChars : Nat → Nat → List Char
  | 0, _ => []
  | d + 1, n => Nat.digitChar (n / 10 ^ d % 10) :: fracChars d (n % 10 ^ d)

/-- Model of Python's fixed-point formatting `format(q, ",.df")` (with the
thousands separator when `sep`): the magnitude is rounded half-to-even at
`d` decimals, a `-` sign is emitted for negative inputs (Python renders
`-0.001` at two decimals as `-0.00`). -/
def pyFixed (sep : Bool) (d : Nat) (q : ℚ) : String :=
  let m := (roundHalfEven (pyAbs q * 10 ^ d)).toNat
  let sign : List Char := if q < 0 then ['-'] else []
  let frac : List Char := if d = 0 then [] else '.' :: fracChars d (m % 10 ^ d)
  ⟨sign ++ intChars sep (m / 10 ^ d) ++ frac⟩

/-- `_fmt_usd` from `server.py`. -/
def fmt_usd (value : ℚ) : String :=
  if 1 ≤ pyAbs value then "$" ++ pyFixed true 2 value
  else "$" ++ pyFixed false 6 value

/-- `_fmt_pct` from `server.py`: the `+` is prepended for non-negative
values; for negative values the sign comes from the number itself. -/
def fmt_pct (value : ℚ) : String :=
  (if 0 ≤ value then "+" else "") ++ pyFixed false 2 value ++ "%"

/-- `_fmt_qty` from `server.py`. -/
def fmt_qty (value : ℚ) : String :=
  if 100 ≤ pyAbs value then pyFixed true 2 value
  else if 1 ≤ pyAbs value then pyFixed true 4 value
  else pyFixed false 8 value

/-- Number of characters after the last `.` of a string (the rendered
decimal places, for strings that end in their fraction digits). -/
def fracCount (s : String) : Nat :=
  (s.toList.reverse.takeWhile (fun c => c ≠ '.')).length

/-- Whether a rendered number contains a thousands separator. -/
def hasComma (s : String) : Prop :=
  ',' ∈ s.toList

instance (s : String) : Decidable (hasComma s) := by
  unfold hasComma; infer_instance

-- ### Digit-level facts

theorem digitChar_isDigit {n : Nat} (h : n < 10) : (Nat.digitChar n).isDigit := by
  interval_cases n <;> decide

theorem natDigitsRev_isDigit (n : Nat) : ∀ c ∈ natDigitsRev n, c.isDigit := by
  induction n using natDigitsRev.induct with
  | case1 n h =>
    intro c hc
    rw [natDigitsRev, dif_pos h] at hc
    simp only [List.mem_singleton] at hc
    exact hc ▸ digitChar_isDigit h
  | case2 n h ih =>
    intro c hc
    rw [natDigitsRev, dif_neg h] at hc
    rcases List.mem_cons.mp hc with rfl | hc
    · exact digitChar_isDigit (Nat.mod_lt _ (by omega))
    · exact ih c hc

theorem fracChars_isDigit (d : Nat) : ∀ (n : Nat), ∀ c ∈ fracChars d n, c.isDigit := by
  induction d with
  | zero => intro n c hc; simp [fracChars] at hc
  | succ d ih =>
    intro n c hc
    rw [fracChars] at hc
    rcases List.mem_cons.mp hc with rfl | hc
    · exact digitChar_isDigit (Nat.mod_lt _ (by omega))
    · exact ih _ c hc

theorem isDigit_ne_dot {c : Char} (h : c.isDigit) : c ≠ '.' := by
  intro rfl_eq; rw [rfl_eq] at h; exact absurd h (by decide)

theorem isDigit_ne_comma {c : Char} (h : c.isDigit) : c ≠ ',' := by
  intro rfl_eq; rw [rfl_eq] at h; exact absurd h (by decide)

theorem groupRev_of_short {l : List Char} (h : l.length ≤ 3) : groupRev l = l := by
  match l with
  | [] => rfl
  | [a] => rfl
  | [a, b] => rfl
  | [a, b, c] => rfl
  | a :: b :: c :: d :: rest => simp at h

theorem groupRev_mem (l : List Char) : ∀ c ∈ groupRev l, c ∈ l ∨ c = ',' := by
  match l with
  | a :: b :: c :: d :: rest =>
    intro x hx
    rw [groupRev] at hx
    simp only [List.mem_cons] at hx ⊢
    rcases hx with rfl | rfl | rfl | rfl | hx
    · tauto
    · tauto
    · tauto
    · tauto
    · rcases groupRev_mem (d :: rest) x hx with h | h
      · simp only [List.mem_cons] at h; tauto
      · tauto
  | [] => intro x hx; exact Or.inl hx
  | [a] => intro x hx; exact Or.inl hx
  | [a, b] => intro x hx; exact Or.inl hx
  | [a, b, c] => intro x hx; exact Or.inl hx

theorem groupRev_comma_of_long {l : List Char} (h : 4 ≤ l.length) :
    ',' ∈ groupRev l := by
  match l with
  | a :: b :: c :: d :: rest =>
    rw [groupRev]
    simp
  | [] => simp at h
  | [a] => simp at h
  | [a, b] => simp at h
  | [a, b, c] => simp at h

theorem natDigitsRev_ne_nil (n : Nat) : natDigitsRev n ≠ [] := by
  rw [natDigitsRev]
  split <;> simp

theorem natDigitsRev_long {k : Nat} : ∀ {n : Nat}, 10 ^ k ≤ n →
    k + 1 ≤ (natDigitsRev n).length := by
  induction k with
  | zero =>
    intro n _
    have := natDigitsRev_ne_nil n
    cases h : natDigitsRev n with
    | nil => exact absurd h this
    | cons a l => simp
  | succ k ih =>
    intro n hn
    have h10 : ¬ n < 10 := by
      have : 10 ≤ 10 ^ (k + 1) := by
        simpa using Nat.pow_le_pow_right (by omega : 1 ≤ 10) (by omega : 1 ≤ k + 1)
      omega
    rw [natDigitsRev, dif_neg h10]
    have hdiv : 10 ^ k ≤ n / 10 := by
      rw [Nat.le_div_iff_mul_le (by omega)]
      calc 10 ^ k * 10 = 10 ^ (k + 1) := by ring
      _ ≤ n := hn
    simpa using ih hdiv

theorem natDigitsRev_of_small {n : Nat} (h : n < 10) :
    natDigitsRev n = [Nat.digitChar n] := by
  rw [natDigitsRev, dif_pos h]

theorem fracChars_length (d : Nat) : ∀ (n : Nat), (fracChars d n).length = d := by
  induction d with
  | zero => intro n; rfl
  | succ d ih => intro n; rw [fracChars]; simp [ih]

theorem roundHalfEven_le (q : ℚ) : roundHalfEven q ≤ ⌊q⌋ + 1 := by
  unfold roundHalfEven
  rw [ratFloor_eq]
  split
  · omega
  · split
    · omega
    · split <;> omega

theorem le_roundHalfEven (q : ℚ) : ⌊q⌋ ≤ roundHalfEven q := by
  unfold roundHalfEven
  rw [ratFloor_eq]
  split
  · omega
  · split
    · omega
    · split <;> omega

theorem takeWhile_append_cons {p : Char → Bool} :
    ∀ {l : List Char}, (∀ c ∈ l, p c = true) → ∀ {x : Char}, p x = false →
    ∀ (r : List Char), (l ++ x :: r).takeWhile p = l := by
  intro l
  induction l with
  | nil =>
    intro _ x hx r
    simp [List.takeWhile_cons, hx]
  | cons a l ih =>
    intro hl x hx r
    have ha : p a = true := hl a (by simp)
    have ht := ih (fun c hc => hl c (by simp [hc])) hx r
    simp [List.takeWhile_cons, ha, ht]

theorem takeWhile_ne_dot {F rest : List Char} (hF : ∀ c ∈ F, c.isDigit) :
    (F.reverse ++ '.' :: rest).takeWhile (fun c => c ≠ '.') = F.reverse := by
  apply takeWhile_append_cons
  · intro c hc
    have : c.isDigit := hF c (List.mem_reverse.mp hc)
    simpa using isDigit_ne_dot this
  · simp

/-- The character list of `pyFixed` with at least one decimal. -/
theorem pyFixed_toList (sep : Bool) (d : Nat) (q : ℚ) (hd : d ≠ 0) :
    (pyFixed sep d q).toList =
      (if q < 0 then ['-'] else []) ++
      intChars sep ((roundHalfEven (pyAbs q * 10 ^ d)).toNat / 10 ^ d) ++
      '.' :: fracChars d ((roundHalfEven (pyAbs q * 10 ^ d)).toNat % 10 ^ d) := by
  simp [pyFixed, hd, String.toList]

theorem fracCount_append_pyFixed (pre : String) (sep : Bool) (d : Nat) (q : ℚ)
    (hd : d ≠ 0) : fracCount (pre ++ pyFixed sep d q) = d := by
  unfold fracCount
  have hlist : (pre ++ pyFixed sep d q).toList = pre.toList ++ (pyFixed sep d q).toList := by
    simp [String.toList, String.data_append]
  rw [hlist, pyFixed_toList sep d q hd]
  set m := (roundHalfEven (pyAbs q * 10 ^ d)).toNat with hm
  rw [show pre.toList ++ ((if q < 0 then ['-'] else []) ++ intChars sep (m / 10 ^ d) ++
        '.' :: fracChars d (m % 10 ^ d)) =
      (pre.toList ++ ((if q < 0 then ['-'] else []) ++ intChars sep (m / 10 ^ d))) ++
        '.' :: fracChars d (m % 10 ^ d) by simp [List.append_assoc]]
  rw [List.reverse_append, List.reverse_cons, List.append_assoc, List.singleton_append]
  rw [takeWhile_ne_dot (fun c hc => fracChars_isDigit _ _ c hc)]
  simp [fracChars_length]

theorem strToList_append (a b : String) : (a ++ b).toList = a.toList ++ b.toList :=
  rfl

theorem strAssoc (a b c : String) : a ++ b ++ c = a ++ (b ++ c) := by
  apply String.ext
  show (a.data ++ b.data) ++ c.data = a.data ++ (b.data ++ c.data)
  exact List.append_assoc _ _ _

theorem not_hasComma_pyFixed_false (d : Nat) (hd : d ≠ 0) (q : ℚ) :
    ¬ hasComma (pyFixed false d q) := by
  unfold hasComma
  rw [pyFixed_toList false d q hd]
  intro h
  rcases List.mem_append.mp h with h | h
  · rcases List.mem_append.mp h with h | h
    · revert h; split <;> simp
    · simp only [intChars, if_neg (by simp : ¬ (false = true)), List.mem_reverse] at h
      exact absurd (natDigitsRev_isDigit _ ',' h) (by decide)
  · rcases List.mem_cons.mp h with h | h
    · exact absurd h (by decide)
    · exact absurd (fracChars_isDigit _ _ ',' h) (by decide)

theorem not_hasComma_dollar {s : String} (h : ¬ hasComma s) : ¬ hasComma ("$" ++ s) := by
  unfold hasComma at *
  rw [strToList_append]
  intro hc
  rcases List.mem_append.mp hc with hc | hc
  · simp [String.toList] at hc
  · exact h hc

theorem hasComma_append_right (a : String) {b : String} (h : hasComma b) :
    hasComma (a ++ b) := by
  unfold hasComma at *
  rw [strToList_append]
  exact List.mem_append.mpr (Or.inr h)

theorem hasComma_pyFixed_true {d : Nat} (hd : d ≠ 0) {q : ℚ}
    (hip : 1000 ≤ (roundHalfEven (pyAbs q * 10 ^ d)).toNat / 10 ^ d) :
    hasComma (pyFixed true d q) := by
  unfold hasComma
  rw [pyFixed_toList true d q hd]
  apply List.mem_append.mpr
  left
  apply List.mem_append.mpr
  right
  show ',' ∈ (groupRev (natDigitsRev ((roundHalfEven (pyAbs q * 10 ^ d)).toNat / 10 ^ d))).reverse
  rw [List.mem_reverse]
  apply groupRev_comma_of_long
  have : 10 ^ 3 ≤ (roundHalfEven (pyAbs q * 10 ^ d)).toNat / 10 ^ d := by norm_num [hip]
  simpa using natDigitsRev_long this

/-- The integer part of `pyFixed`'s scaled rounding is at least `b / 10 ^ d`
whenever `b ≤ |q| * 10 ^ d`. -/
theorem pyFixed_ip_ge {d b : Nat} {q : ℚ} (h : (b : ℚ) ≤ pyAbs q * 10 ^ d) :
    b / 10 ^ d ≤ (roundHalfEven (pyAbs q * 10 ^ d)).toNat / 10 ^ d := by
  have hfl : (b : Int) ≤ ⌊pyAbs q * 10 ^ d⌋ := Int.le_floor.mpr (by exact_mod_cast h)
  have hrd : (b : Int) ≤ roundHalfEven (pyAbs q * 10 ^ d) :=
    le_trans hfl (le_roundHalfEven _)
  have hnn : (0 : Int) ≤ roundHalfEven (pyAbs q * 10 ^ d) :=
    le_trans (by exact_mod_cast Nat.zero_le b) hrd
  have hm : b ≤ (roundHalfEven (pyAbs q * 10 ^ d)).toNat := (Int.le_toNat hnn).mpr hrd
  exact Nat.div_le_div_right hm

/-- Decimal places of a percent string: characters between the final `.`
and the trailing `%`. -/
def pctDecimals (s : String) : Nat :=
  ((s.toList.reverse.drop 1).takeWhile (fun c => c ≠ '.')).length

/-- **C7.** The numeric formatters select their precision tier exactly at the
stated magnitude boundaries: `_fmt_usd` renders two decimals in
thousands-separated form for `1 ≤ |v|` (a separator indeed appears once
`1000 ≤ |v|`) and six decimals with no separator for `|v| < 1`; `_fmt_qty`
renders two decimals (separated) for `100 ≤ |v|`, four decimals for
`1 ≤ |v| < 100`, and eight decimals with no separator for `|v| < 1`. -/
theorem C7_formatter_tiers (v : ℚ) :
    (1 ≤ |v| → fmt_usd v = "$" ++ pyFixed true 2 v ∧ fracCount (fmt_usd v) = 2) ∧
    (|v| < 1 → fmt_usd v = "$" ++ pyFixed false 6 v ∧ fracCount (fmt_usd v) = 6 ∧
      ¬ hasComma (fmt_usd v)) ∧
    (1000 ≤ |v| → hasComma (fmt_usd v)) ∧
    (100 ≤ |v| → fmt_qty v = pyFixed true 2 v ∧ fracCount (fmt_qty v) = 2) ∧
    (1 ≤ |v| → |v| < 100 → fmt_qty v = pyFixed true 4 v ∧ fracCount (fmt_qty v) = 4) ∧
    (|v| < 1 → fmt_qty v = pyFixed false 8 v ∧ fracCount (fmt_qty v) = 8 ∧
      ¬ hasComma (fmt_qty v)) := by
  refine ⟨?_, ?_, ?_, ?_, ?_, ?_⟩
  · intro h1
    rw [fmt_usd]
    simp only [pyAbs_eq]
    rw [if_pos h1]
    exact ⟨rfl, fracCount_append_pyFixed "$" true 2 v (by omega)⟩
  · intro h1
    rw [fmt_usd]
    simp only [pyAbs_eq]
    rw [if_neg (not_le.mpr h1)]
    exact ⟨rfl, fracCount_append_pyFixed "$" false 6 v (by omega),
      not_hasComma_dollar (not_hasComma_pyFixed_false 6 (by omega) v)⟩
  · intro h1000
    have h1 : 1 ≤ |v| := le_trans (by norm_num) h1000
    rw [fmt_usd]
    simp only [pyAbs_eq]
    rw [if_pos h1]
    apply hasComma_append_right
    apply hasComma_pyFixed_true (by omega)
    have hb : ((100000 : Nat) : ℚ) ≤ pyAbs v * 10 ^ 2 := by
      rw [pyAbs_eq]
      push_cast
      nlinarith
    have := pyFixed_ip_ge hb
    norm_num at this
    norm_num [this]
  · intro h100
    rw [fmt_qty]
    simp only [pyAbs_eq]
    rw [if_pos h100]
    exact ⟨rfl, fracCount_append_pyFixed "" true 2 v (by omega)⟩
  · intro h1 h100
    rw [fmt_qty]
    simp only [pyAbs_eq]
    rw [if_neg (not_le.mpr h100), if_pos h1]
    exact ⟨rfl, fracCount_append_pyFixed "" true 4 v (by omega)⟩
  · intro h1
    have h100 : ¬ 100 ≤ |v| := not_le.mpr (lt_trans h1 (by norm_num))
    rw [fmt_qty]
    simp only [pyAbs_eq]
    rw [if_neg h100, if_neg (not_le.mpr h1)]
    refine ⟨rfl, fracCount_append_pyFixed "" false 8 v (by omega), ?_⟩
    have := not_hasComma_pyFixed_false 8 (by omega) v
    unfold hasComma at *
    simpa using this

/-- Witness for C7 at concrete magnitudes. -/
theorem C7_formatter_tiers_witness :
    fracCount (fmt_usd (1234.5 : ℚ)) = 2 ∧ hasComma (fmt_usd (1234.5 : ℚ)) ∧
    fracCount (fmt_qty (1/2 : ℚ)) = 8 ∧ ¬ hasComma (fmt_qty (1/2 : ℚ)) := by
  have habs1 : |(1234.5 : ℚ)| = 1234.5 := abs_of_nonneg (by norm_num)
  have habs2 : |(1/2 : ℚ)| = 1/2 := abs_of_nonneg (by norm_num)
  exact ⟨((C7_formatter_tiers 1234.5).1 (by rw [habs1]; norm_num)).2,
   (C7_formatter_tiers 1234.5).2.2.1 (by rw [habs1]; norm_num),
   ((C7_formatter_tiers (1/2)).2.2.2.2.2 (by rw [habs2]; norm_num)).2.1,
   ((C7_formatter_tiers (1/2)).2.2.2.2.2 (by rw [habs2]; norm_num)).2.2⟩

/-- **C8.** The percentage formatter always emits an explicit leading sign —
`+` for `v ≥ 0` (zero included), `-` for `v < 0` — and exactly two decimal
places before the trailing `%`. -/
theorem C8_pct_sign_and_decimals (v : ℚ) :
    (∃ r, fmt_pct v = (if 0 ≤ v then "+" else "-") ++ r) ∧
    pctDecimals (fmt_pct v) = 2 := by
  constructor
  · by_cases hv : 0 ≤ v
    · refine ⟨pyFixed false 2 v ++ "%", ?_⟩
      rw [fmt_pct, if_pos hv, if_pos hv]
      exact strAssoc _ _ _
    · have hneg : v < 0 := not_le.mp hv
      refine ⟨⟨(intChars false ((roundHalfEven (pyAbs v * 10 ^ 2)).toNat / 10 ^ 2) ++
          '.' :: fracChars 2 ((roundHalfEven (pyAbs v * 10 ^ 2)).toNat % 10 ^ 2)) ++ ['%']⟩, ?_⟩
      rw [fmt_pct, if_neg hv, if_neg hv]
      apply String.ext
      have hdata : (pyFixed false 2 v).data =
          '-' :: (intChars false ((roundHalfEven (pyAbs v * 10 ^ 2)).toNat / 10 ^ 2) ++
            '.' :: fracChars 2 ((roundHalfEven (pyAbs v * 10 ^ 2)).toNat % 10 ^ 2)) := by
        have h2 := pyFixed_toList false 2 v (by omega)
        rw [show (pyFixed false 2 v).toList = (pyFixed false 2 v).data from rfl] at h2
        rw [h2, if_pos hneg]
        simp
      show ("".data ++ (pyFixed false 2 v).data) ++ "%".data = _
      rw [hdata]
      rfl
  · unfold pctDecimals
    have hlist : (fmt_pct v).toList =
        (((if 0 ≤ v then "+" else "") : String).toList ++ (pyFixed false 2 v).toList)
          ++ ['%'] := by
      rw [fmt_pct, strToList_append, strToList_append]
      rfl
    rw [hlist, List.reverse_append, List.reverse_singleton, List.singleton_append,
      List.drop_one, List.tail_cons, List.reverse_append]
    rw [pyFixed_toList false 2 v (by omega)]
    rw [List.reverse_append, List.reverse_cons, List.append_assoc, List.append_assoc,
      List.singleton_append]
    rw [takeWhile_ne_dot (fun c hc => fracChars_isDigit _ _ c hc)]
    simp [fracChars_length]

/-! ## JSON values

`resp.json()` payloads and the structured echo `json.dumps(data, indent=2)`.
Numbers are decimal literals `m / 10^e` (a JSON number token with `e`
fractional digits; `e = 0` is a Python `int`, `e ≠ 0` a float rendered by
`repr`). -/

mutual
inductive JVal where
  | null
  | bool (b : Bool)
  | num (m : Int) (e : Nat)
  | str (s : String)
  | arr (xs : JArr)
  | obj (fs : JObj)
inductive JArr where
  | nil
  | cons (v : JVal) (tl : JArr)
inductive JObj where
  | nil
  | cons (k : String) (v : JVal) (tl : JObj)
end

def spaces (n : Nat) : List Char := List.replicate n ' '

/-- Modelled from the spec: the escaping `json.dumps` applies inside string
literals (quote, backslash and the common control shorts; other characters
pass through unchanged). -/
def escapeChar (c : Char) : List Char :=
  if c = '"' then ['\\', '"']
  else if c = '\\' then ['\\', '\\']
  else if c = '\n' then ['\\', 'n']
  else if c = '\t' then ['\\', 't']
  else if c = '\r' then ['\\', 'r']
  else if c = '\x08' then ['\\', 'b']
  else if c = '\x0c' then ['\\', 'f']
  else [c]

def escapeList : List Char → List Char
  | [] => []
  | c :: cs => escapeChar c ++ escapeList cs

/-- A JSON string literal: quoted and escaped. -/
def printStr (s : String) : List Char :=
  '"' :: escapeList s.data ++ ['"']

/-- A JSON number literal: the digits of the integer part followed, when
`e ≠ 0`, by a point and exactly `e` fraction digits. -/
def printUNum (a e : Nat) : List Char :=
  (natDigitsRev (a / 10 ^ e)).reverse ++
    (if e = 0 then [] else '.' :: fracChars e (a % 10 ^ e))

def printNum (m : Int) (e : Nat) : List Char :=
  (if m < 0 then ['-'] else []) ++ printUNum m.natAbs e

mutual
/-- Modelled from the spec: `json.dumps(v, indent=2)` at nesting depth
`lvl` — containers open with a newline, children are indented two further
spaces, items are joined by `",\n"`, keys by `": "`. -/
def printV (lvl : Nat) : JVal → List Char
  | .null => "null".data
  | .bool true => "true".data
  | .bool false => "false".data
  | .num m e => printNum m e
  | .str s => printStr s
  | .arr xs => '[' :: printArrBody lvl xs
  | .obj fs => '\x7b' :: printObjBody lvl fs

def printArrBody (lvl : Nat) : JArr → List Char
  | .nil => [']']
  | .cons v tl =>
      '\n' :: (spaces (2 * (lvl + 1)) ++ printV (lvl + 1) v ++ printArrRest lvl tl)

def printArrRest (lvl : Nat) : JArr → List Char
  | .nil => '\n' :: (spaces (2 * lvl) ++ [']'])
  | .cons v tl =>
      ',' :: '\n' :: (spaces (2 * (lvl + 1)) ++ printV (lvl + 1) v ++ printArrRest lvl tl)

def printObjBody (lvl : Nat) : JObj → List Char
  | .nil => ['\x7d']
  | .cons k v tl =>
      '\n' :: (spaces (2 * (lvl + 1)) ++ printStr k ++ ':' :: ' ' ::
        (printV (lvl + 1) v ++ printObjRest lvl tl))

def printObjRest (lvl : Nat) : JObj → List Char
  | .nil => '\n' :: (spaces (2 * lvl) ++ ['\x7d'])
  | .cons k v tl =>
      ',' :: '\n' :: (spaces (2 * (lvl + 1)) ++ printStr k ++ ':' :: ' ' ::
        (printV (lvl + 1) v ++ printObjRest lvl tl))
end

/-- `json.dumps(data, indent=2)`. -/
def dumps (v : JVal) : String := ⟨printV 0 v⟩

-- ### The parser (a model of `json.loads`)

def isWsChar (c : Char) : Bool :=
  c = ' ' || c = '\n' || c = '\t' || c = '\r'

def skipWs : List Char → List Char
  | [] => []
  | c :: cs => if isWsChar c then skipWs cs else c :: cs

def unescapeChar (c : Char) : Option Char :=
  if c = '"' then some '"'
  else if c = '\\' then some '\\'
  else if c = '/' then some '/'
  else if c = 'n' then some '\n'
  else if c = 't' then some '\t'
  else if c = 'r' then some '\r'
  else if c = 'b' then some '\x08'
  else if c = 'f' then some '\x0c'
  else none

/-- Read the body of a string literal up to the closing quote. -/
def parseStrChars : List Char → Option (List Char × List Char)
  | [] => none
  | c :: rest =>
    if c = '"' then some ([], rest)
    else if c = '\\' then
      match rest with
      | [] => none
      | e :: rest' =>
        (unescapeChar e).bind fun uc =>
          (parseStrChars rest').map fun p => (uc :: p.1, p.2)
    else (parseStrChars rest).map fun p => (c :: p.1, p.2)

def digitVal (c : Char) : Nat := c.toNat - '0'.toNat

def digitsToNat (ds : List Char) : Nat :=
  ds.foldl (fun acc c => acc * 10 + digitVal c) 0

def parseNumCore (neg : Bool) (input : List Char) : Option (JVal × List Char) :=
  let ds := input.takeWhile Char.isDigit
  let r1 := input.dropWhile Char.isDigit
  if ds.isEmpty then none
  else if r1.head? = some '.' then
    let r2 := r1.tail
    let fs := r2.takeWhile Char.isDigit
    let r3 := r2.dropWhile Char.isDigit
    if fs.isEmpty then none
    else some (.num ((if neg then -1 else 1) *
      (digitsToNat ds * 10 ^ fs.length + digitsToNat fs)) fs.length, r3)
  else some (.num ((if neg then -1 else 1) * digitsToNat ds) 0, r1)

def parseNum : List Char → Option (JVal × List Char)
  | [] => none
  | c :: cs => if c = '-' then parseNumCore true cs else parseNumCore false (c :: cs)

mutual
def parseVal : Nat → List Char → Option (JVal × List Char)
  | 0, _ => none
  | fuel + 1, input =>
    match skipWs input with
    | [] => none
    | c :: cs =>
      if c = 'n' then
        match cs with
        | 'u' :: 'l' :: 'l' :: r => some (.null, r)
        | _ => none
      else if c = 't' then
        match cs with
        | 'r' :: 'u' :: 'e' :: r => some (.bool true, r)
        | _ => none
      else if c = 'f' then
        match cs with
        | 'a' :: 'l' :: 's' :: 'e' :: r => some (.bool false, r)
        | _ => none
      else if c = '"' then
        (parseStrChars cs).map fun p => (.str ⟨p.1⟩, p.2)
      else if c = '[' then
        (parseArrBodyP fuel cs).map fun p => (.arr p.1, p.2)
      else if c = '\x7b' then
        (parseObjBodyP fuel cs).map fun p => (.obj p.1, p.2)
      else parseNum (c :: cs)

def parseArrBodyP : Nat → List Char → Option (JArr × List Char)
  | 0, _ => none
  | fuel + 1, input =>
    match skipWs input with
    | [] => none
    | c :: cs =>
      if c = ']' then some (.nil, cs)
      else
        (parseVal fuel (c :: cs)).bind fun p =>
          (parseArrTailP fuel p.2).map fun q => (.cons p.1 q.1, q.2)

def parseArrTailP : Nat → List Char → Option (JArr × List Char)
  | 0, _ => none
  | fuel + 1, input =>
    match skipWs input with
    | [] => none
    | c :: cs =>
      if c = ']' then some (.nil, cs)
      else if c = ',' then
        (parseVal fuel cs).bind fun p =>
          (parseArrTailP fuel p.2).map fun q => (.cons p.1 q.1, q.2)
      else none

def parseObjBodyP : Nat → List Char → Option (JObj × List Char)
  | 0, _ => none
  | fuel + 1, input =>
    match skipWs input with
    | [] => none
    | c :: cs =>
      if c = '\x7d' then some (.nil, cs)
      else if c = '"' then
        (parseStrChars cs).bind fun kp =>
          match skipWs kp.2 with
          | ':' :: r2 =>
            (parseVal fuel r2).bind fun p =>
              (parseObjTailP fuel p.2).map fun q => (.cons ⟨kp.1⟩ p.1 q.1, q.2)
          | _ => none
      else none

def parseObjTailP : Nat → List Char → Option (JObj × List Char)
  | 0, _ => none
  | fuel + 1, input =>
    match skipWs input with
    | [] => none
    | c :: cs =>
      if c = '\x7d' then some (.nil, cs)
      else if c = ',' then
        match skipWs cs with
        | '"' :: cs2 =>
          (parseStrChars cs2).bind fun kp =>
            match skipWs kp.2 with
            | ':' :: r2 =>
              (parseVal fuel r2).bind fun p =>
                (parseObjTailP fuel p.2).map fun q => (.cons ⟨kp.1⟩ p.1 q.1, q.2)
            | _ => none
        | _ => none
      else none
end

mutual
def sizeV : JVal → Nat
  | .null => 1
  | .bool _ => 1
  | .num _ _ => 1
  | .str _ => 1
  | .arr xs => 1 + sizeA xs
  | .obj fs => 1 + sizeO fs

def sizeA : JArr → Nat
  | .nil => 1
  | .cons v tl => 1 + sizeV v + sizeA tl

def sizeO : JObj → Nat
  | .nil => 1
  | .cons _ v tl => 1 + sizeV v + sizeO tl
end

/-- Modelled from the spec: `json.loads` applied to the tool's output
string (accepting exactly the JSON surface syntax the tools emit). -/
def parseJson (s : String) : Option JVal :=
  match parseVal (s.length + 1) s.data with
  | some (v, rest) => if (skipWs rest).isEmpty then some v else none
  | none => none

-- ### Round-trip helper lemmas

theorem skipWs_not_ws {c : Char} {cs : List Char} (h : isWsChar c = false) :
    skipWs (c :: cs) = c :: cs := by
  simp [skipWs, h]

theorem skipWs_spaces (n : Nat) (l : List Char) :
    skipWs (spaces n ++ l) = skipWs l := by
  induction n with
  | zero => rfl
  | succ n ih =>
    rw [spaces, List.replicate_succ, List.cons_append]
    simpa [skipWs, isWsChar] using ih

theorem skipWs_nl (l : List Char) : skipWs ('\n' :: l) = skipWs l := by
  simp [skipWs, isWsChar]

theorem skipWs_idem (l : List Char) : skipWs (skipWs l) = skipWs l := by
  induction l with
  | nil => rfl
  | cons c cs ih =>
    by_cases h : isWsChar c = true
    · simp [skipWs, h, ih]
    · simp only [Bool.not_eq_true] at h
      rw [skipWs_not_ws h, skipWs_not_ws h]

/-- The head of `r` fails predicate `p` (vacuously for `[]`). -/
def headNotP (p : Char → Bool) : List Char → Prop
  | [] => True
  | c :: _ => p c = false

/-- A context in which a printed number can be re-read unambiguously: the
next character (if any) is neither a digit nor a point. -/
def numStop : List Char → Prop
  | [] => True
  | c :: _ => c.isDigit = false ∧ c ≠ '.'

theorem takeWhile_all {p : Char → Bool} :
    ∀ {l r : List Char}, (∀ c ∈ l, p c = true) → headNotP p r →
    (l ++ r).takeWhile p = l ∧ (l ++ r).dropWhile p = r := by
  intro l
  induction l with
  | nil =>
    intro r _ hr
    cases r with
    | nil => exact ⟨rfl, rfl⟩
    | cons c cs =>
      have hc : p c = false := hr
      constructor
      · simp [List.takeWhile_cons, hc]
      · simp [List.dropWhile_cons, hc]
  | cons a l ih =>
    intro r hl hr
    have ha : p a = true := hl a (by simp)
    have := ih (fun c hc => hl c (by simp [hc])) hr
    constructor
    · simp [List.takeWhile_cons, ha, this.1]
    · simp [List.dropWhile_cons, ha, this.2]

theorem isDigit_not_special {c : Char} (h : c.isDigit = true) :
    isWsChar c = false ∧ c ≠ '.' ∧ c ≠ ',' ∧ c ≠ ']' ∧ c ≠ '-' ∧ c ≠ 'n' ∧
    c ≠ 't' ∧ c ≠ 'f' ∧ c ≠ '"' ∧ c ≠ '[' ∧ c ≠ '\x7b' := by
  refine ⟨?_, ?_, ?_, ?_, ?_, ?_, ?_, ?_, ?_, ?_, ?_⟩
  · by_cases h1 : c = ' '
    · rw [h1] at h; exact absurd h (by decide)
    by_cases h2 : c = '\n'
    · rw [h2] at h; exact absurd h (by decide)
    by_cases h3 : c = '\t'
    · rw [h3] at h; exact absurd h (by decide)
    by_cases h4 : c = '\r'
    · rw [h4] at h; exact absurd h (by decide)
    simp [isWsChar, h1, h2, h3, h4]
  all_goals intro he; rw [he] at h; exact absurd h (by decide)

-- ### String-literal round trip

theorem escapeChar_spec (c : Char) :
    (∃ e, escapeChar c = ['\\', e] ∧ unescapeChar e = some c) ∨
    (escapeChar c = [c] ∧ c ≠ '"' ∧ c ≠ '\\') := by
  by_cases h1 : c = '"'
  · subst h1; exact Or.inl ⟨'"', by decide, by decide⟩
  by_cases h2 : c = '\\'
  · subst h2; exact Or.inl ⟨'\\', by decide, by decide⟩
  by_cases h3 : c = '\n'
  · subst h3; exact Or.inl ⟨'n', by decide, by decide⟩
  by_cases h4 : c = '\t'
  · subst h4; exact Or.inl ⟨'t', by decide, by decide⟩
  by_cases h5 : c = '\r'
  · subst h5; exact Or.inl ⟨'r', by decide, by decide⟩
  by_cases h6 : c = '\x08'
  · subst h6; exact Or.inl ⟨'b', by decide, by decide⟩
  by_cases h7 : c = '\x0c'
  · subst h7; exact Or.inl ⟨'f', by decide, by decide⟩
  right
  refine ⟨?_, h1, h2⟩
  unfold escapeChar
  rw [if_neg h1, if_neg h2, if_neg h3, if_neg h4, if_neg h5, if_neg h6, if_neg h7]

theorem parseStrChars_escape : ∀ (cs rest : List Char),
    parseStrChars (escapeList cs ++ '"' :: rest) = some (cs, rest) := by
  intro cs
  induction cs with
  | nil =>
    intro rest
    show parseStrChars ('"' :: rest) = some ([], rest)
    rw [parseStrChars.eq_def]
    simp
  | cons c cs ih =>
    intro rest
    rw [escapeList]
    rcases escapeChar_spec c with ⟨e, he, hu⟩ | ⟨he, hq, hb⟩
    · rw [he]
      show parseStrChars ('\\' :: e :: (escapeList cs ++ '"' :: rest)) = _
      rw [parseStrChars.eq_def]
      simp [hu, ih rest]
    · rw [he]
      show parseStrChars (c :: (escapeList cs ++ '"' :: rest)) = _
      rw [parseStrChars.eq_def]
      simp [hq, hb, ih rest]

-- ### Number round trip

theorem digitVal_digitChar {k : Nat} (h : k < 10) :
    digitVal (Nat.digitChar k) = k := by
  interval_cases k <;> decide

theorem foldl_digits (ds : List Char) :
    ∀ (acc : Nat), ds.foldl (fun a c => a * 10 + digitVal c) acc =
      acc * 10 ^ ds.length + digitsToNat ds := by
  induction ds with
  | nil => intro acc; simp [digitsToNat]
  | cons d ds ih =>
    intro acc
    show ds.foldl _ (acc * 10 + digitVal d) = _
    rw [ih (acc * 10 + digitVal d)]
    have hd : digitsToNat (d :: ds) = digitVal d * 10 ^ ds.length + digitsToNat ds := by
      show ds.foldl _ (0 * 10 + digitVal d) = _
      rw [ih (0 * 10 + digitVal d)]
      ring
    rw [hd]
    simp [List.length_cons]
    ring

theorem digitsToNat_natDigitsRev (n : Nat) :
    digitsToNat ((natDigitsRev n).reverse) = n := by
  induction n using natDigitsRev.induct with
  | case1 n h =>
    rw [natDigitsRev_of_small h]
    show digitsToNat [Nat.digitChar n] = n
    show 0 * 10 + digitVal (Nat.digitChar n) = n
    simpa using digitVal_digitChar h
  | case2 n h ih =>
    rw [natDigitsRev, dif_neg h, List.reverse_cons]
    unfold digitsToNat
    rw [List.foldl_append]
    show digitsToNat ((natDigitsRev (n / 10)).reverse) * 10 + digitVal (Nat.digitChar (n % 10)) = n
    rw [ih, digitVal_digitChar (Nat.mod_lt _ (by omega))]
    omega

theorem digitsToNat_fracChars (e : Nat) : ∀ {n : Nat}, n < 10 ^ e →
    digitsToNat (fracChars e n) = n := by
  induction e with
  | zero => intro n hn; interval_cases n; rfl
  | succ e ih =>
    intro n hn
    rw [fracChars]
    show List.foldl _ (0 * 10 + digitVal (Nat.digitChar (n / 10 ^ e % 10))) _ = n
    rw [foldl_digits, fracChars_length]
    have hlt : n / 10 ^ e < 10 := by
      rw [Nat.div_lt_iff_lt_mul (Nat.pos_pow_of_pos e (by omega))]
      calc n < 10 ^ (e + 1) := hn
      _ = 10 * 10 ^ e := by ring
    have hmod : n / 10 ^ e % 10 = n / 10 ^ e := Nat.mod_eq_of_lt hlt
    rw [hmod, ih (Nat.mod_lt _ (Nat.pos_pow_of_pos e (by omega))), digitVal_digitChar hlt]
    simp only [Nat.zero_mul, Nat.zero_add]
    rw [Nat.mul_comm]
    exact Nat.div_add_mod n (10 ^ e)

theorem fracChars_ne_nil {e n : Nat} (he : e ≠ 0) : fracChars e n ≠ [] := by
  cases e with
  | zero => omega
  | succ e => rw [fracChars]; simp

theorem numStop_headNot {rest : List Char} (h : numStop rest) :
    headNotP Char.isDigit rest := by
  cases rest with
  | nil => trivial
  | cons c cs => exact h.1

theorem printUNum_head (a e : Nat) :
    ∃ c cs, printUNum a e = c :: cs ∧ c.isDigit = true := by
  obtain ⟨d0, ds, hD⟩ : ∃ d0 ds, (natDigitsRev (a / 10 ^ e)).reverse = d0 :: ds := by
    cases hh : (natDigitsRev (a / 10 ^ e)).reverse with
    | nil => exact absurd (List.reverse_eq_nil_iff.mp hh) (natDigitsRev_ne_nil _)
    | cons x xs => exact ⟨x, xs, rfl⟩
  refine ⟨d0, ds ++ (if e = 0 then [] else '.' :: fracChars e (a % 10 ^ e)), ?_, ?_⟩
  · unfold printUNum
    rw [hD]
    rfl
  · have hmem : d0 ∈ (natDigitsRev (a / 10 ^ e)).reverse := by
      rw [hD]
      exact List.mem_cons_self d0 ds
    exact natDigitsRev_isDigit _ d0 (List.mem_reverse.mp hmem)

theorem parseNumCore_print (neg : Bool) (a e : Nat) {rest : List Char}
    (hrest : numStop rest) :
    parseNumCore neg (printUNum a e ++ rest) =
      some (.num ((if neg then -1 else 1) * a) e, rest) := by
  by_cases he : e = 0
  · subst he
    have hinput : printUNum a 0 ++ rest = (natDigitsRev a).reverse ++ rest := by
      unfold printUNum
      simp
    have htd := takeWhile_all (r := rest)
      (fun c hc => natDigitsRev_isDigit a c (List.mem_reverse.mp hc))
      (numStop_headNot hrest)
    have hEmp : ((natDigitsRev a).reverse).isEmpty = false := by
      cases hh : (natDigitsRev a).reverse with
      | nil => exact absurd (List.reverse_eq_nil_iff.mp hh) (natDigitsRev_ne_nil _)
      | cons x xs => rfl
    have hdot : ¬ rest.head? = some '.' := by
      cases rest with
      | nil => simp
      | cons r rs =>
        simp only [List.head?_cons, Option.some_inj]
        exact hrest.2
    rw [hinput]
    simp only [parseNumCore, htd.1, htd.2, hEmp, Bool.false_eq_true, if_false]
    rw [if_neg hdot, digitsToNat_natDigitsRev]
  · have hinput : printUNum a e ++ rest =
        (natDigitsRev (a / 10 ^ e)).reverse ++
          ('.' :: (fracChars e (a % 10 ^ e) ++ rest)) := by
      unfold printUNum
      rw [if_neg he]
      simp
    have htd := takeWhile_all (l := (natDigitsRev (a / 10 ^ e)).reverse)
      (r := '.' :: (fracChars e (a % 10 ^ e) ++ rest))
      (fun c hc => natDigitsRev_isDigit (a / 10 ^ e) c (List.mem_reverse.mp hc))
      (by show Char.isDigit '.' = false; decide)
    have htf := takeWhile_all (l := fracChars e (a % 10 ^ e)) (r := rest)
      (fun c hc => fracChars_isDigit e (a % 10 ^ e) c hc) (numStop_headNot hrest)
    have hEmpD : ((natDigitsRev (a / 10 ^ e)).reverse).isEmpty = false := by
      cases hh : (natDigitsRev (a / 10 ^ e)).reverse with
      | nil => exact absurd (List.reverse_eq_nil_iff.mp hh) (natDigitsRev_ne_nil _)
      | cons x xs => rfl
    have hEmpF : (fracChars e (a % 10 ^ e)).isEmpty = false := by
      cases hh : fracChars e (a % 10 ^ e) with
      | nil => exact absurd hh (fracChars_ne_nil he)
      | cons x xs => rfl
    rw [hinput]
    simp only [parseNumCore, htd.1, htd.2, hEmpD, Bool.false_eq_true, if_false,
      List.head?_cons, List.tail_cons, htf.1, htf.2, hEmpF, if_pos rfl]
    rw [digitsToNat_natDigitsRev, fracChars_length,
      digitsToNat_fracChars e (Nat.mod_lt _ (Nat.pos_pow_of_pos e (by omega)))]
    have hsum : a / 10 ^ e * 10 ^ e + a % 10 ^ e = a := by
      rw [Nat.mul_comm]
      exact Nat.div_add_mod a (10 ^ e)
    rw [if_pos trivial]
    have hsum2 : ((a / 10 ^ e : Nat) : Int) * 10 ^ e + ((a % 10 ^ e : Nat) : Int) =
        (a : Int) := by
      exact_mod_cast hsum
    rw [hsum2]

theorem parseNum_cons (c : Char) (cs : List Char) :
    parseNum (c :: cs) =
      if c = '-' then parseNumCore true cs else parseNumCore false (c :: cs) := rfl

theorem parseNum_print (m : Int) (e : Nat) {rest : List Char}
    (hrest : numStop rest) :
    parseNum (printNum m e ++ rest) = some (.num m e, rest) := by
  unfold printNum
  by_cases hm : m < 0
  · rw [if_pos hm]
    show parseNum ('-' :: (printUNum m.natAbs e ++ rest)) = _
    rw [parseNum_cons, if_pos rfl]
    rw [parseNumCore_print true m.natAbs e hrest]
    have hval : ((if (true : Bool) = true then (-1 : Int) else 1) * (m.natAbs : Int)) = m := by
      rw [if_pos rfl]
      omega
    rw [hval]
  · rw [if_neg hm]
    obtain ⟨c0, cs0, hP, hdig⟩ := printUNum_head m.natAbs e
    have hne : c0 ≠ '-' := (isDigit_not_special hdig).2.2.2.2.1
    show parseNum (printUNum m.natAbs e ++ rest) = _
    rw [hP]
    show parseNum (c0 :: (cs0 ++ rest)) = _
    rw [parseNum_cons, if_neg hne]
    rw [show (c0 :: (cs0 ++ rest)) = printUNum m.natAbs e ++ rest from by rw [hP]; rfl]
    rw [parseNumCore_print false m.natAbs e hrest]
    have hval : ((if (false : Bool) = true then (-1 : Int) else 1) * (m.natAbs : Int)) = m := by
      rw [if_neg (by decide)]
      omega
    rw [hval]

theorem sizeV_pos (v : JVal) : 1 ≤ sizeV v := by
  cases v <;> simp [sizeV]

theorem sizeA_pos (xs : JArr) : 1 ≤ sizeA xs := by
  cases xs with
  | nil => simp [sizeA]
  | cons v tl => show 1 ≤ 1 + sizeV v + sizeA tl; omega

theorem sizeO_pos (fs : JObj) : 1 ≤ sizeO fs := by
  cases fs with
  | nil => simp [sizeO]
  | cons k v tl => show 1 ≤ 1 + sizeV v + sizeO tl; omega

theorem printV_head (lvl : Nat) (v : JVal) :
    ∃ c cs, printV lvl v = c :: cs ∧ isWsChar c = false ∧ c ≠ ']' := by
  cases v with
  | null => exact ⟨'n', _, rfl, by decide, by decide⟩
  | bool b => cases b with
    | true => exact ⟨'t', _, rfl, by decide, by decide⟩
    | false => exact ⟨'f', _, rfl, by decide, by decide⟩
  | str s => exact ⟨'"', _, rfl, by decide, by decide⟩
  | arr xs => exact ⟨'[', _, rfl, by decide, by decide⟩
  | obj fs => exact ⟨'\x7b', _, rfl, by decide, by decide⟩
  | num m e =>
    by_cases hm : m < 0
    · refine ⟨'-', printUNum m.natAbs e, ?_, by decide, by decide⟩
      show printNum m e = _
      unfold printNum
      rw [if_pos hm]
      rfl
    · obtain ⟨c0, cs0, hP, hdig⟩ := printUNum_head m.natAbs e
      refine ⟨c0, cs0, ?_, (isDigit_not_special hdig).1,
        (isDigit_not_special hdig).2.2.2.1⟩
      show printNum m e = _
      unfold printNum
      rw [if_neg hm]
      simpa using hP

theorem numStop_printArrRest (lvl : Nat) (tl : JArr) (rest : List Char) :
    numStop (printArrRest lvl tl ++ rest) := by
  cases tl with
  | nil => exact ⟨by decide, by decide⟩
  | cons v tl => exact ⟨by decide, by decide⟩

theorem numStop_printObjRest (lvl : Nat) (tl : JObj) (rest : List Char) :
    numStop (printObjRest lvl tl ++ rest) := by
  cases tl with
  | nil => exact ⟨by decide, by decide⟩
  | cons k v tl => exact ⟨by decide, by decide⟩

mutual

theorem rtV (v : JVal) (lvl fuel : Nat) (hf : sizeV v ≤ fuel)
    (input rest : List Char) (hrest : numStop rest)
    (hskip : skipWs input = printV lvl v ++ rest) :
    parseVal fuel input = some (v, rest) := by
  obtain ⟨f, rfl⟩ : ∃ f, fuel = f + 1 := by
    have := sizeV_pos v
    cases fuel with
    | zero => omega
    | succ f => exact ⟨f, rfl⟩
  cases v with
  | null =>
    rw [parseVal.eq_def]
    dsimp only
    rw [hskip]
    rfl
  | bool b =>
    cases b with
    | true =>
      rw [parseVal.eq_def]
      dsimp only
      rw [hskip]
      rfl
    | false =>
      rw [parseVal.eq_def]
      dsimp only
      rw [hskip]
      rfl
  | str s =>
    rw [parseVal.eq_def]
    dsimp only
    rw [hskip]
    show (parseStrChars ((escapeList s.data ++ ['"']) ++ rest)).map
      (fun p => (JVal.str ⟨p.1⟩, p.2)) = some (.str s, rest)
    rw [List.append_assoc, List.singleton_append, parseStrChars_escape]
    rfl
  | num m e =>
    rw [parseVal.eq_def]
    dsimp only
    rw [hskip]
    by_cases hm : m < 0
    · rw [show printV lvl (JVal.num m e) = '-' :: printUNum m.natAbs e from by
        show printNum m e = _
        unfold printNum
        rw [if_pos hm]
        rfl]
      show parseNum ('-' :: (printUNum m.natAbs e ++ rest)) = some (.num m e, rest)
      rw [show ('-' :: (printUNum m.natAbs e ++ rest)) = printNum m e ++ rest from by
        unfold printNum
        rw [if_pos hm]
        rfl]
      exact parseNum_print m e hrest
    · obtain ⟨c0, cs0, hP, hdig⟩ := printUNum_head m.natAbs e
      obtain ⟨hws, hdot, hcom, hbr, hmin, hn, ht, hfc, hq, hlb, hob⟩ :=
        isDigit_not_special hdig
      rw [show printV lvl (JVal.num m e) = c0 :: cs0 from by
        show printNum m e = _
        unfold printNum
        rw [if_neg hm]
        simpa using hP]
      show (if c0 = 'n' then _ else _) = some (JVal.num m e, rest)
      rw [if_neg hn, if_neg ht, if_neg hfc, if_neg hq, if_neg hlb, if_neg hob]
      show parseNum (c0 :: (cs0 ++ rest)) = some (JVal.num m e, rest)
      rw [show (c0 :: (cs0 ++ rest)) = printNum m e ++ rest from by
        unfold printNum
        rw [if_neg hm]
        rw [show printUNum m.natAbs e = c0 :: cs0 from hP]
        rfl]
      exact parseNum_print m e hrest
  | arr xs =>
    rw [parseVal.eq_def]
    dsimp only
    rw [hskip]
    show (parseArrBodyP f (printArrBody lvl xs ++ rest)).map
      (fun p => (JVal.arr p.1, p.2)) = some (.arr xs, rest)
    rw [rtArrBody xs lvl f (by simp [sizeV] at hf; omega) rest]
    rfl
  | obj fs =>
    rw [parseVal.eq_def]
    dsimp only
    rw [hskip]
    show (parseObjBodyP f (printObjBody lvl fs ++ rest)).map
      (fun p => (JVal.obj p.1, p.2)) = some (.obj fs, rest)
    rw [rtObjBody fs lvl f (by simp [sizeV] at hf; omega) rest]
    rfl

theorem rtArrBody (xs : JArr) (lvl fuel : Nat) (hf : sizeA xs ≤ fuel)
    (rest : List Char) :
    parseArrBodyP fuel (printArrBody lvl xs ++ rest) = some (xs, rest) := by
  obtain ⟨f, rfl⟩ : ∃ f, fuel = f + 1 := by
    have := sizeA_pos xs
    cases fuel with
    | zero => omega
    | succ f => exact ⟨f, rfl⟩
  cases xs with
  | nil => rfl
  | cons v tl =>
    obtain ⟨c0, cs0, hP, hws, hbr⟩ := printV_head (lvl + 1) v
    have hskip2 : skipWs (printArrBody lvl (.cons v tl) ++ rest) =
        printV (lvl + 1) v ++ (printArrRest lvl tl ++ rest) := by
      show skipWs ('\n' :: ((spaces (2 * (lvl + 1)) ++ printV (lvl + 1) v ++
        printArrRest lvl tl) ++ rest)) = _
      rw [skipWs_nl, List.append_assoc, List.append_assoc, skipWs_spaces]
      rw [hP, List.cons_append, skipWs_not_ws hws, ← List.cons_append, ← hP]
    rw [parseArrBodyP.eq_def]
    dsimp only
    rw [hskip2, hP, List.cons_append]
    dsimp only
    rw [if_neg hbr]
    have hv : parseVal f (c0 :: (cs0 ++ (printArrRest lvl tl ++ rest))) =
        some (v, printArrRest lvl tl ++ rest) := by
      apply rtV v (lvl + 1) f (by simp [sizeA] at hf; omega)
      · exact numStop_printArrRest lvl tl rest
      · rw [← List.cons_append, ← hP]
        rw [hP, List.cons_append, skipWs_not_ws hws, ← List.cons_append, ← hP]
    rw [hv]
    show (parseArrTailP f (printArrRest lvl tl ++ rest)).map _ = _
    rw [rtArrRest tl lvl f (by simp [sizeA] at hf; omega) rest]
    rfl

theorem rtArrRest (tl : JArr) (lvl fuel : Nat) (hf : sizeA tl ≤ fuel)
    (rest : List Char) :
    parseArrTailP fuel (printArrRest lvl tl ++ rest) = some (tl, rest) := by
  obtain ⟨f, rfl⟩ : ∃ f, fuel = f + 1 := by
    have := sizeA_pos tl
    cases fuel with
    | zero => omega
    | succ f => exact ⟨f, rfl⟩
  cases tl with
  | nil =>
    have hskip2 : skipWs (printArrRest lvl .nil ++ rest) = ']' :: rest := by
      show skipWs ('\n' :: ((spaces (2 * lvl) ++ [']']) ++ rest)) = _
      rw [skipWs_nl, List.append_assoc, skipWs_spaces]
      rfl
    rw [parseArrTailP.eq_def]
    dsimp only
    rw [hskip2]
    rfl
  | cons v tl =>
    obtain ⟨c0, cs0, hP, hws, hbr⟩ := printV_head (lvl + 1) v
    have hskip2 : skipWs (printArrRest lvl (.cons v tl) ++ rest) =
        ',' :: ('\n' :: ((spaces (2 * (lvl + 1)) ++ printV (lvl + 1) v ++
          printArrRest lvl tl) ++ rest)) := skipWs_not_ws (by decide)
    rw [parseArrTailP.eq_def]
    dsimp only
    rw [hskip2]
    dsimp only
    rw [if_neg (by decide), if_pos rfl]
    have hv : parseVal f ('\n' :: ((spaces (2 * (lvl + 1)) ++ printV (lvl + 1) v ++
        printArrRest lvl tl) ++ rest)) = some (v, printArrRest lvl tl ++ rest) := by
      apply rtV v (lvl + 1) f (by simp [sizeA] at hf; omega)
      · exact numStop_printArrRest lvl tl rest
      · rw [skipWs_nl, List.append_assoc, List.append_assoc, skipWs_spaces]
        rw [hP, List.cons_append, skipWs_not_ws hws, ← List.cons_append, ← hP]
    rw [hv]
    show (parseArrTailP f (printArrRest lvl tl ++ rest)).map _ = _
    rw [rtArrRest tl lvl f (by simp [sizeA] at hf; omega) rest]
    rfl

theorem rtObjBody (fs : JObj) (lvl fuel : Nat) (hf : sizeO fs ≤ fuel)
    (rest : List Char) :
    parseObjBodyP fuel (printObjBody lvl fs ++ rest) = some (fs, rest) := by
  obtain ⟨f, rfl⟩ : ∃ f, fuel = f + 1 := by
    have := sizeO_pos fs
    cases fuel with
    | zero => omega
    | succ f => exact ⟨f, rfl⟩
  cases fs with
  | nil => rfl
  | cons k v tl =>
    obtain ⟨c0, cs0, hP, hws, hbr⟩ := printV_head (lvl + 1) v
    have hskip2 : skipWs (printObjBody lvl (.cons k v tl) ++ rest) =
        '"' :: ((escapeList k.data ++ ['"']) ++
          (':' :: ' ' :: ((printV (lvl + 1) v ++ printObjRest lvl tl) ++ rest))) := by
      show skipWs ('\n' :: ((spaces (2 * (lvl + 1)) ++ printStr k ++ ':' :: ' ' ::
        (printV (lvl + 1) v ++ printObjRest lvl tl)) ++ rest)) = _
      rw [skipWs_nl, List.append_assoc, List.append_assoc, skipWs_spaces]
      rfl
    rw [parseObjBodyP.eq_def]
    dsimp only
    rw [hskip2]
    dsimp only
    rw [if_neg (by decide), if_pos rfl]
    rw [List.append_assoc, List.singleton_append, parseStrChars_escape]
    show (match skipWs (':' :: ' ' :: ((printV (lvl + 1) v ++ printObjRest lvl tl) ++ rest)) with
      | ':' :: r2 => (parseVal f r2).bind fun p =>
          (parseObjTailP f p.2).map fun q => (JObj.cons ⟨k.data⟩ p.1 q.1, q.2)
      | _ => none) = some (.cons k v tl, rest)
    rw [skipWs_not_ws (by decide)]
    show (parseVal f (' ' :: ((printV (lvl + 1) v ++ printObjRest lvl tl) ++ rest))).bind _ = _
    have hv : parseVal f (' ' :: ((printV (lvl + 1) v ++ printObjRest lvl tl) ++ rest)) =
        some (v, printObjRest lvl tl ++ rest) := by
      apply rtV v (lvl + 1) f (by simp [sizeO] at hf; omega)
      · exact numStop_printObjRest lvl tl rest
      · show skipWs (' ' :: _) = _
        rw [show skipWs (' ' :: ((printV (lvl + 1) v ++ printObjRest lvl tl) ++ rest)) =
          skipWs ((printV (lvl + 1) v ++ printObjRest lvl tl) ++ rest) from by
            simp [skipWs, isWsChar]]
        rw [List.append_assoc]
        rw [hP, List.cons_append, skipWs_not_ws hws, ← List.cons_append, ← hP]
    rw [hv]
    show (parseObjTailP f (printObjRest lvl tl ++ rest)).map _ = _
    rw [rtObjRest tl lvl f (by simp [sizeO] at hf; omega) rest]
    rfl

theorem rtObjRest (tl : JObj) (lvl fuel : Nat) (hf : sizeO tl ≤ fuel)
    (rest : List Char) :
    parseObjTailP fuel (printObjRest lvl tl ++ rest) = some (tl, rest) := by
  obtain ⟨f, rfl⟩ : ∃ f, fuel = f + 1 := by
    have := sizeO_pos tl
    cases fuel with
    | zero => omega
    | succ f => exact ⟨f, rfl⟩
  cases tl with
  | nil =>
    have hskip2 : skipWs (printObjRest lvl .nil ++ rest) = '\x7d' :: rest := by
      show skipWs ('\n' :: ((spaces (2 * lvl) ++ ['\x7d']) ++ rest)) = _
      rw [skipWs_nl, List.append_assoc, skipWs_spaces]
      rfl
    rw [parseObjTailP.eq_def]
    dsimp only
    rw [hskip2]
    rfl
  | cons k v tl =>
    obtain ⟨c0, cs0, hP, hws, hbr⟩ := printV_head (lvl + 1) v
    rw [parseObjTailP.eq_def]
    dsimp only
    rw [show skipWs (printObjRest lvl (.cons k v tl) ++ rest) =
        ',' :: ('\n' :: ((spaces (2 * (lvl + 1)) ++ printStr k ++ ':' :: ' ' ::
          (printV (lvl + 1) v ++ printObjRest lvl tl)) ++ rest)) from
      skipWs_not_ws (by decide)]
    dsimp only
    rw [if_neg (by decide), if_pos rfl]
    rw [show skipWs ('\n' :: ((spaces (2 * (lvl + 1)) ++ printStr k ++ ':' :: ' ' ::
        (printV (lvl + 1) v ++ printObjRest lvl tl)) ++ rest)) =
        '"' :: ((escapeList k.data ++ ['"']) ++
          (':' :: ' ' :: ((printV (lvl + 1) v ++ printObjRest lvl tl) ++ rest))) from by
      rw [skipWs_nl, List.append_assoc, List.append_assoc, skipWs_spaces]
      rfl]
    show (parseStrChars ((escapeList k.data ++ ['"']) ++
        (':' :: ' ' :: ((printV (lvl + 1) v ++ printObjRest lvl tl) ++ rest)))).bind
      (fun kp => match skipWs kp.2 with
        | ':' :: r2 => (parseVal f r2).bind fun p =>
            (parseObjTailP f p.2).map fun q => (JObj.cons ⟨kp.1⟩ p.1 q.1, q.2)
        | _ => none) = some (.cons k v tl, rest)
    rw [List.append_assoc, List.singleton_append, parseStrChars_escape]
    show (match skipWs (':' :: ' ' :: ((printV (lvl + 1) v ++ printObjRest lvl tl) ++ rest)) with
      | ':' :: r2 => (parseVal f r2).bind fun p =>
          (parseObjTailP f p.2).map fun q => (JObj.cons ⟨k.data⟩ p.1 q.1, q.2)
      | _ => none) = some (.cons k v tl, rest)
    rw [skipWs_not_ws (by decide)]
    show (parseVal f (' ' :: ((printV (lvl + 1) v ++ printObjRest lvl tl) ++ rest))).bind _ = _
    have hv : parseVal f (' ' :: ((printV (lvl + 1) v ++ printObjRest lvl tl) ++ rest)) =
        some (v, printObjRest lvl tl ++ rest) := by
      apply rtV v (lvl + 1) f (by simp [sizeO] at hf; omega)
      · exact numStop_printObjRest lvl tl rest
      · rw [show skipWs (' ' :: ((printV (lvl + 1) v ++ printObjRest lvl tl) ++ rest)) =
          skipWs ((printV (lvl + 1) v ++ printObjRest lvl tl) ++ rest) from by
            simp [skipWs, isWsChar]]
        rw [List.append_assoc]
        rw [hP, List.cons_append, skipWs_not_ws hws, ← List.cons_append, ← hP]
    rw [hv]
    show (parseObjTailP f (printObjRest lvl tl ++ rest)).map _ = _
    rw [rtObjRest tl lvl f (by simp [sizeO] at hf; omega) rest]
    rfl

end

mutual

theorem sizeV_le_print (v : JVal) (lvl : Nat) : sizeV v ≤ (printV lvl v).length := by
  cases v with
  | null => show 1 ≤ 4; omega
  | bool b => cases b with
    | true => show 1 ≤ 4; omega
    | false => show 1 ≤ 5; omega
  | num m e =>
    obtain ⟨c0, cs0, hP, -⟩ := printUNum_head m.natAbs e
    show 1 ≤ (printNum m e).length
    unfold printNum
    rw [hP]
    simp only [List.length_append, List.length_cons]
    omega
  | str s =>
    show 1 ≤ (printStr s).length
    unfold printStr
    simp
  | arr xs =>
    have := sizeA_le_printBody xs lvl
    show 1 + sizeA xs ≤ ('[' :: printArrBody lvl xs).length
    simp only [List.length_cons]
    omega
  | obj fs =>
    have := sizeO_le_printBody fs lvl
    show 1 + sizeO fs ≤ ('\x7b' :: printObjBody lvl fs).length
    simp only [List.length_cons]
    omega

theorem sizeA_le_printBody (xs : JArr) (lvl : Nat) :
    sizeA xs ≤ (printArrBody lvl xs).length := by
  cases xs with
  | nil => show 1 ≤ 1; omega
  | cons v tl =>
    have h1 := sizeV_le_print v (lvl + 1)
    have h2 := sizeA_le_printRest tl lvl
    show 1 + sizeV v + sizeA tl ≤
      ('\n' :: (spaces (2 * (lvl + 1)) ++ printV (lvl + 1) v ++ printArrRest lvl tl)).length
    simp only [List.length_cons, List.length_append]
    omega

theorem sizeA_le_printRest (xs : JArr) (lvl : Nat) :
    sizeA xs ≤ (printArrRest lvl xs).length := by
  cases xs with
  | nil =>
    show 1 ≤ ('\n' :: (spaces (2 * lvl) ++ [']'])).length
    simp
  | cons v tl =>
    have h1 := sizeV_le_print v (lvl + 1)
    have h2 := sizeA_le_printRest tl lvl
    show 1 + sizeV v + sizeA tl ≤
      (',' :: '\n' :: (spaces (2 * (lvl + 1)) ++ printV (lvl + 1) v ++
        printArrRest lvl tl)).length
    simp only [List.length_cons, List.length_append]
    omega

theorem sizeO_le_printBody (fs : JObj) (lvl : Nat) :
    sizeO fs ≤ (printObjBody lvl fs).length := by
  cases fs with
  | nil => show 1 ≤ 1; omega
  | cons k v tl =>
    have h1 := sizeV_le_print v (lvl + 1)
    have h2 := sizeO_le_printRest tl lvl
    show 1 + sizeV v + sizeO tl ≤
      ('\n' :: (spaces (2 * (lvl + 1)) ++ printStr k ++ ':' :: ' ' ::
        (printV (lvl + 1) v ++ printObjRest lvl tl))).length
    simp only [List.length_cons, List.length_append]
    omega

theorem sizeO_le_printRest (fs : JObj) (lvl : Nat) :
    sizeO fs ≤ (printObjRest lvl fs).length := by
  cases fs with
  | nil =>
    show 1 ≤ ('\n' :: (spaces (2 * lvl) ++ ['\x7d'])).length
    simp
  | cons k v tl =>
    have h1 := sizeV_le_print v (lvl + 1)
    have h2 := sizeO_le_printRest tl lvl
    show 1 + sizeV v + sizeO tl ≤
      (',' :: '\n' :: (spaces (2 * (lvl + 1)) ++ printStr k ++ ':' :: ' ' ::
        (printV (lvl + 1) v ++ printObjRest lvl tl))).length
    simp only [List.length_cons, List.length_append]
    omega

end

/-- The structured echo parses back to the payload it came from. -/
theorem parseJson_dumps (v : JVal) : parseJson (dumps v) = some v := by
  obtain ⟨c0, cs0, hP, hws, -⟩ := printV_head 0 v
  have hskip : skipWs (printV 0 v) = printV 0 v ++ [] := by
    rw [hP, skipWs_not_ws hws, List.append_nil]
  have hlen : sizeV v ≤ (dumps v).length + 1 := by
    have h1 := sizeV_le_print v 0
    have h2 : (dumps v).length = (printV 0 v).length := rfl
    omega
  have h := rtV v 0 ((dumps v).length + 1) hlen (printV 0 v) [] trivial hskip
  unfold parseJson
  rw [show (dumps v).data = printV 0 v from rfl, h]
  rfl

/-! ## Configuration, enums and validated input models (from `server.py`) -/

/-- Default of `os.environ.get("PORTFOLIO_API_URL", "http://localhost:3000")`. -/
def API_BASE_URL : String := "http://localhost:3000"

inductive ResponseFormat where
  | markdown
  | json
deriving DecidableEq

inductive TaxStrategy where
  | fifo
  | lifo
  | hifo
  | lofo
deriving DecidableEq

def TaxStrategy.value : TaxStrategy → String
  | .fifo => "FIFO"
  | .lifo => "LIFO"
  | .hifo => "HIFO"
  | .lofo => "LOFO"

inductive TransactionType where
  | deposit
  | withdrawal
  | swap
deriving DecidableEq

def TransactionType.value : TransactionType → String
  | .deposit => "Deposit"
  | .withdrawal => "Withdrawal"
  | .swap => "Swap"

structure GetHoldingsInput where
  portfolio_id : Nat
  response_format : ResponseFormat

structure GetHistoryInput where
  portfolio_id : Nat
  days : Nat
  response_format : ResponseFormat

structure ListTransactionsInput where
  portfolio_id : Option Nat
  response_format : ResponseFormat

structure AddTransactionInput where
  portfolio_id : Nat
  type : TransactionType
  datetime : String
  to_asset : String
  to_quantity : ℚ
  to_price_usd : Option ℚ
  from_asset : Option String
  from_quantity : Option ℚ
  from_price_usd : Option ℚ
  fees_usd : Option ℚ
  notes : Option String

structure DeleteTransactionInput where
  transaction_id : Nat

structure GetCashflowInput where
  portfolio_id : Nat
  response_format : ResponseFormat

structure GetTaxReportInput where
  year : Nat
  portfolio_id : Option Nat
  asset_strategy : TaxStrategy
  cash_strategy : TaxStrategy
  response_format : ResponseFormat

structure GetPricesInput where
  symbols : String

structure GetPriceHistoryInput where
  symbols : String
  start_timestamp : Int
  end_timestamp : Int

structure ListPortfoliosInput where
  response_format : ResponseFormat

/-! ## The Error Classifier (`_handle_error`) -/

/-- A failure escaping the Gateway call or the payload formatting: a
status-coded HTTP failure carrying the response (parsed body when it was
JSON, raw text otherwise), a timeout, a connection failure, or any other
exception with its class name and message (`KeyError`, `TypeError`, ...). -/
inductive Exc where
  | httpStatus (status : Nat) (body : Option JVal) (text : String)
  | timeout
  | connectError
  | other (name msg : String)

/-- `str(n)` for a natural number. -/
def natToStr (n : Nat) : String := ⟨(natDigitsRev n).reverse⟩

/-- Association lookup in a JSON object (first binding wins, as in a dict). -/
def jLookup : JObj → String → Option JVal
  | .nil, _ => none
  | .cons k v tl, key => if k = key then some v else jLookup tl key

def strTake (s : String) (n : Nat) : String := ⟨s.data.take n⟩

/-- `str(v)` for a payload value interpolated into an f-string. Scalars are
rendered exactly (`None`/`True`/`False`, numeric literals, the raw string);
containers reuse the JSON printer — Python quotes them slightly
differently, but no property below depends on container interpolation. -/
def jStr : JVal → String
  | .str s => s
  | .num m e => ⟨printNum m e⟩
  | .bool true => "True"
  | .bool false => "False"
  | .null => "None"
  | v => dumps v

/-- `e.response.json().get("error", "")` with the fallback
`e.response.text[:200]` when the body is not JSON or not a dict. -/
def excDetail (body : Option JVal) (text : String) : String :=
  match body with
  | some (.obj fs) =>
    match jLookup fs "error" with
    | some v => jStr v
    | none => ""
  | _ => strTake text 200

/-- `_handle_error` from `server.py`. -/
def _handle_error (e : Exc) : String :=
  match e with
  | .httpStatus status body text =>
    "Error: " ++
      (if status = 401 then
        "Authentication failed. Check your PORTFOLIO_API_KEY. Detail: " ++
          excDetail body text
      else if status = 403 then "Permission denied. " ++ excDetail body text
      else if status = 404 then "Not found. " ++ excDetail body text
      else if status = 429 then "Rate limit exceeded. Wait a moment and retry."
      else "API returned status " ++ natToStr status ++ ". " ++ excDetail body text)
  | .timeout => "Error: Request timed out. Is your Portfolio Tracker running?"
  | .connectError =>
    "Error: Cannot connect to " ++ API_BASE_URL ++
      ". Make sure your Portfolio Tracker Web is running."
  | .other name msg => "Error: " ++ name ++ ": " ++ msg

/-! ## Payload access helpers (Python dict/list semantics over `JVal`) -/

def jarrToList : JArr → List JVal
  | .nil => []
  | .cons v tl => v :: jarrToList tl

def jobjKeys : JObj → List String
  | .nil => []
  | .cons k _ tl => k :: jobjKeys tl

def jobjItems : JObj → List (String × JVal)
  | .nil => []
  | .cons k v tl => (k, v) :: jobjItems tl

/-- Python truthiness of a payload value. -/
def jTruthy : JVal → Bool
  | .null => false
  | .bool b => b
  | .num m _ => m ≠ 0
  | .str s => !s.data.isEmpty
  | .arr .nil => false
  | .arr (.cons _ _) => true
  | .obj .nil => false
  | .obj (.cons _ _ _) => true

/-- A payload value used as a number (`abs`, `>=`, arithmetic, the `_fmt_*`
helpers); anything non-numeric raises a `TypeError` as in Python
(booleans count as `0`/`1`). -/
def asNum : JVal → Except Exc ℚ
  | .num m e => .ok ((m : ℚ) / 10 ^ e)
  | .bool b => .ok (if b then 1 else 0)
  | _ => .error (.other "TypeError" "unsupported operand type")

/-- `v.get(k, dflt)`: total on dicts, `AttributeError` otherwise. -/
def jget (v : JVal) (k : String) (dflt : JVal) : Except Exc JVal :=
  match v with
  | .obj fs => .ok ((jLookup fs k).getD dflt)
  | _ => .error (.other "AttributeError" k)

/-- `v.get(k, d)` followed by numeric use of the result. -/
def jGetNumD (v : JVal) (k : String) (d : ℚ) : Except Exc ℚ :=
  match v with
  | .obj fs =>
    match jLookup fs k with
    | some x => asNum x
    | none => .ok d
  | _ => .error (.other "AttributeError" k)

/-- `v[k]`: `KeyError` when the key is absent, `TypeError` when `v` is not
a dict. -/
def jidx (v : JVal) (k : String) : Except Exc JVal :=
  match v with
  | .obj fs =>
    match jLookup fs k with
    | some x => .ok x
    | none => .error (.other "KeyError" k)
  | _ => .error (.other "TypeError" k)

/-- Use of a payload value as a list (`len`, slicing, iteration in the
renderers); non-lists raise `TypeError`. -/
def jAsArr : JVal → Except Exc (List JVal)
  | .arr xs => .ok (jarrToList xs)
  | _ => .error (.other "TypeError" "expected a list")

/-- `v[:10]` on the datetime field (a string slice; `TypeError` otherwise). -/
def jSlice10 : JVal → Except Exc String
  | .str s => .ok (strTake s 10)
  | _ => .error (.other "TypeError" "unsliceable")

/-- Python `==` between a payload value and a string literal. -/
def jEqStr (v : JVal) (s : String) : Bool :=
  match v with
  | .str t => t = s
  | _ => false

/-- `sorted(d.items())`: insertion sort by key (Python compares the key
strings first; our payload dicts do not carry duplicate keys). -/
def insertByKey (p : String × JVal) : List (String × JVal) → List (String × JVal)
  | [] => [p]
  | q :: rest => if p.1 < q.1 then p :: q :: rest else q :: insertByKey p rest

def sortByKey : List (String × JVal) → List (String × JVal)
  | [] => []
  | p :: rest => insertByKey p (sortByKey rest)

/-- `sorted(v.items())` (`AttributeError` when `v` is not a dict). -/
def jItemsSorted (v : JVal) : Except Exc (List (String × JVal)) :=
  match v with
  | .obj fs => .ok (sortByKey (jobjItems fs))
  | _ => .error (.other "AttributeError" "items")

/-! ## Per-tool response formatting (the bodies of the `try` blocks) -/

/-- `len(v)` (`TypeError` on scalars). -/
def jLen : JVal → Except Exc Nat
  | .arr xs => .ok (jarrToList xs).length
  | .obj fs => .ok (jobjItems fs).length
  | .str s => .ok s.data.length
  | _ => .error (.other "TypeError" "has no len")

/-- Modelled from the spec: Python's `str()` of a validated float input.
No property below depends on its digits; the `Rat` printer keeps it
deterministic. -/
def floatRepr (q : ℚ) : String := toString q

def holdingLines (h : JVal) : Except Exc (List String) := do
  let pnl ← jGetNumD h "pnl" 0
  let emoji := if 0 ≤ pnl then "+" else ""
  let asset ← jidx h "asset"
  let qty ← jidx h "quantity" >>= asNum
  let price ← jidx h "currentPrice" >>= asNum
  let value ← jidx h "currentValue" >>= asNum
  let cost ← jidx h "costBasis" >>= asNum
  let pnlv ← jidx h "pnl" >>= asNum
  let pnlPct ← jidx h "pnlPercent" >>= asNum
  let ch7 ← jGetNumD h "change7dPercent" 0
  pure ["### " ++ jStr asset,
    "- Quantity: " ++ fmt_qty qty,
    "- Price: " ++ fmt_usd price,
    "- Value: " ++ fmt_usd value,
    "- Cost Basis: " ++ fmt_usd cost,
    "- P&L: " ++ emoji ++ fmt_usd pnlv ++ " (" ++ fmt_pct pnlPct ++ ")",
    "- 7d Change: " ++ fmt_pct ch7,
    ""]

def allocLine (a : JVal) : Except Exc String := do
  let asset ← jidx a "asset"
  let pct ← jidx a "percentage" >>= asNum
  let value ← jidx a "value" >>= asNum
  pure ("- **" ++ jStr asset ++ "**: " ++ pyFixed false 1 pct ++ "% (" ++
    fmt_usd value ++ ")")

/-- `portfolio_get_holdings`, after the Gateway call. -/
def holdings_md (p : GetHoldingsInput) (data : JVal) : Except Exc String :=
  if p.response_format = .json then .ok (dumps data)
  else do
    let summary ← jget data "summary" (.obj .nil)
    let holdings ← jget data "holdings" (.arr .nil)
    if jTruthy holdings = false then
      pure "Portfolio is empty - no holdings found."
    else do
      let tv ← jGetNumD summary "totalValue" 0
      let tc ← jGetNumD summary "totalCost" 0
      let tp ← jGetNumD summary "totalPnl" 0
      let tpp ← jGetNumD summary "totalPnlPercent" 0
      let c7 ← jGetNumD summary "totalChange7d" 0
      let c7p ← jGetNumD summary "totalChange7dPercent" 0
      let btc ← jGetNumD summary "btcPrice" 0
      let hs ← jAsArr holdings
      let bodies ← hs.mapM holdingLines
      let alloc ← jget data "allocation" (.arr .nil)
      let allocLines ←
        if jTruthy alloc then do
          let items ← jAsArr alloc
          let ls ← items.mapM allocLine
          pure (["## Allocation", ""] ++ ls ++ [""])
        else pure []
      pure (String.intercalate "\n"
        (["# Portfolio Summary", "",
          "**Total Value:** " ++ fmt_usd tv,
          "**Total Cost:** " ++ fmt_usd tc,
          "**Total P&L:** " ++ fmt_usd tp ++ " (" ++ fmt_pct tpp ++ ")",
          "**7d Change:** " ++ fmt_usd c7 ++ " (" ++ fmt_pct c7p ++ ")",
          "**BTC Price:** " ++ fmt_usd btc,
          "", "## Holdings", ""] ++ bodies.flatten ++ allocLines))

/-- The guarded percent change of `portfolio_get_history`:
`(change / first_val * 100) if first_val > 0 else 0`. -/
def historyChangePct (first_val last_val : ℚ) : ℚ :=
  if 0 < first_val then (last_val - first_val) / first_val * 100 else 0

/-- The narrative line list of `portfolio_get_history` (header, period,
start/end, change with percent, then the daily entries). -/
def historyLines (days : Nat) (firstv lastv : ℚ) (d0 d1 : JVal)
    (entries : List String) : List String :=
  ["# Portfolio Value History (" ++ natToStr days ++ " days)", "",
   "**Period:** " ++ jStr d0 ++ " to " ++ jStr d1,
   "**Start:** " ++ fmt_usd firstv ++ " | **End:** " ++ fmt_usd lastv,
   "**Change:** " ++ fmt_usd (lastv - firstv) ++ " (" ++
     fmt_pct (historyChangePct firstv lastv) ++ ")",
   ""] ++ entries

/-- `portfolio_get_history`, after the Gateway call. -/
def history_md (p : GetHistoryInput) (data : JVal) : Except Exc String :=
  if p.response_format = .json then .ok (dumps data)
  else do
    let history ← jget data "history" (.arr .nil)
    if jTruthy history = false then
      pure "No portfolio history available for this period."
    else do
      let hs ← jAsArr history
      match hs with
      | [] => .error (.other "IndexError" "list index out of range")
      | h0 :: t =>
        let firstv ← jidx h0 "totalValue" >>= asNum
        let lastE := (h0 :: t).getLast (by simp)
        let lastv ← jidx lastE "totalValue" >>= asNum
        let d0 ← jidx h0 "date"
        let d1 ← jidx lastE "date"
        let entries ← (h0 :: t).mapM (fun entry => do
          let dt ← jidx entry "date"
          let v ← jidx entry "totalValue" >>= asNum
          pure ("- " ++ jStr dt ++ ": " ++ fmt_usd v))
        pure (String.intercalate "\n"
          (historyLines p.days firstv lastv d0 d1 entries))

/-- `portfolio_list_portfolios`, after the Gateway call. -/
def portfolios_md (p : ListPortfoliosInput) (data : JVal) : Except Exc String :=
  if p.response_format = .json then .ok (dumps data)
  else if jTruthy data = false then .ok "No portfolios found."
  else do
    let ps ← jAsArr data
    let ls ← ps.mapM (fun q => do
      let name ← jidx q "name"
      let idv ← jidx q "id"
      let created ← jget q "createdAt" (.str "N/A")
      pure ("- **" ++ jStr name ++ "** (ID: " ++ jStr idv ++ ") - created " ++
        jStr created))
    pure (String.intercalate "\n" ("# Your Portfolios" :: "" :: ls))

/-! ## Transactions narrative (`portfolio_list_transactions`) -/

/-- The kind-specific description of one rendered transaction line. -/
def txDesc (tx : JVal) : Except Exc String := do
  let ttype ← jget tx "type" (.str "?")
  if jEqStr ttype "Swap" then do
    let fa ← jget tx "fromAsset" (.str "?")
    let fq ← jGetNumD tx "fromQuantity" 0
    let ta ← jget tx "toAsset" (.str "?")
    let tq ← jGetNumD tx "toQuantity" 0
    pure ("Swap " ++ fmt_qty fq ++ " " ++ jStr fa ++ " -> " ++
      fmt_qty tq ++ " " ++ jStr ta)
  else if jEqStr ttype "Deposit" then do
    let tq ← jGetNumD tx "toQuantity" 0
    let ta ← jget tx "toAsset" (.str "?")
    let pv ← jget tx "toPriceUsd" .null
    if jTruthy pv then do
      let pr ← jidx tx "toPriceUsd" >>= asNum
      pure ("Deposit " ++ fmt_qty tq ++ " " ++ jStr ta ++ " @ " ++ fmt_usd pr)
    else pure ("Deposit " ++ fmt_qty tq ++ " " ++ jStr ta)
  else do
    let tq ← jGetNumD tx "toQuantity" 0
    let ta ← jget tx "toAsset" (.str "?")
    pure ("Withdraw " ++ fmt_qty tq ++ " " ++ jStr ta)

/-- `f" (fees: ...)" if tx.get("feesUsd") else ""`. -/
def feesSuffix (tx feesJ : JVal) : Except Exc String :=
  if jTruthy feesJ then do
    let f ← jidx tx "feesUsd" >>= asNum
    pure (" (fees: " ++ fmt_usd f ++ ")")
  else pure ""

/-- `f" - ..." if tx.get("notes") else ""`. -/
def notesSuffix (tx notesJ : JVal) : Except Exc String :=
  if jTruthy notesJ then do
    let nv ← jidx tx "notes"
    pure (" - " ++ jStr nv)
  else pure ""

/-- One rendered transaction line of the narrative body. -/
def txLine (tx : JVal) : Except Exc String := do
  let dtv ← jget tx "datetime" (.str "")
  let dt ← jSlice10 dtv
  let ttype ← jget tx "type" (.str "?")
  let desc ← txDesc tx
  let feesJ ← jget tx "feesUsd" .null
  let fees ← feesSuffix tx feesJ
  let notesJ ← jget tx "notes" .null
  let notes ← notesSuffix tx notesJ
  let idv ← jidx tx "id"
  pure ("- **" ++ dt ++ "** [" ++ jStr ttype ++ "] " ++ desc ++ fees ++ notes ++
    " (ID: " ++ jStr idv ++ ")")

/-- `data[-50:]`. -/
def last50 (data : List JVal) : List JVal := data.drop (data.length - 50)

def txNotice (n : Nat) : String :=
  "\n_Showing last 50 of " ++ natToStr n ++ " transactions. Use JSON format for all._"

/-- The narrative line list for a non-empty transaction payload. -/
def txLines (data : List JVal) : Except Exc (List String) := do
  let body ← (last50 data).mapM txLine
  pure (("# Transactions (" ++ natToStr data.length ++ " total)") :: "" :: body ++
    (if 50 < data.length then [txNotice data.length] else []))

/-- `portfolio_list_transactions`, after the Gateway call. -/
def transactions_md (p : ListTransactionsInput) (data : JVal) : Except Exc String :=
  if p.response_format = .json then .ok (dumps data)
  else if jTruthy data = false then .ok "No transactions found."
  else do
    let ds ← jAsArr data
    let ls ← txLines ds
    pure (String.intercalate "\n" ls)

/-- `portfolio_add_transaction`: the confirmation string built from the
POST result and the validated input. -/
def addTx_result (p : AddTransactionInput) (result : JVal) : Except Exc String := do
  let idv ← jget result "id" (.str "?")
  pure ("Transaction created (ID: " ++ jStr idv ++ "). Type: " ++ p.type.value ++
    ", Asset: " ++ floatRepr p.to_quantity ++ " " ++ p.to_asset ++
    (match p.to_price_usd with
     | some pr => if pr ≠ 0 then " @ " ++ fmt_usd pr else ""
     | none => ""))

/-- `portfolio_delete_transaction`: the confirmation string. -/
def deleteTx_result (p : DeleteTransactionInput) (_result : JVal) :
    Except Exc String :=
  .ok ("Transaction " ++ natToStr p.transaction_id ++ " deleted successfully.")

/-- `portfolio_get_cashflow`, after the Gateway call. -/
def cashflow_md (p : GetCashflowInput) (data : JVal) : Except Exc String :=
  if p.response_format = .json then .ok (dumps data)
  else do
    let s ← jget data "summary" (.obj .nil)
    let mi ← jGetNumD s "totalMoneyIn" 0
    let mo ← jGetNumD s "totalMoneyOut" 0
    let nf ← jGetNumD s "netMoneyFlow" 0
    let bd ← jGetNumD s "totalBankDeposits" 0
    let bw ← jGetNumD s "totalBankWithdrawals" 0
    let nbf ← jGetNumD s "netBankFlow" 0
    let ap ← jGetNumD s "totalAssetPurchases" 0
    let asl ← jGetNumD s "totalAssetSales" 0
    let nt ← jGetNumD s "netAssetTrading" 0
    let te ← jget s "totalTaxableEvents" (.num 0 0)
    let tt ← jget s "totalTransactions" (.num 0 0)
    let yearly ← jget data "yearlyFlow" (.obj .nil)
    let yls ←
      if jTruthy yearly then do
        let items ← jItemsSorted yearly
        let ys ← items.mapM (fun pr => do
          let ti ← jGetNumD pr.2 "totalIn" 0
          let to_ ← jGetNumD pr.2 "totalOut" 0
          let net ←
            match pr.2 with
            | .obj fs =>
              match jLookup fs "netFlow" with
              | some x => asNum x
              | none => pure (ti - to_)
            | _ => Except.error (.other "AttributeError" "get")
          pure ("- **" ++ pr.1 ++ "**: Net " ++ fmt_usd net))
        pure (["", "## Yearly Breakdown", ""] ++ ys)
      else pure []
    pure (String.intercalate "\n"
      (["# Cash Flow Analysis", "", "## Summary",
        "- **Total Money In:** " ++ fmt_usd mi,
        "- **Total Money Out:** " ++ fmt_usd mo,
        "- **Net Flow:** " ++ fmt_usd nf,
        "",
        "- Bank Deposits: " ++ fmt_usd bd,
        "- Bank Withdrawals: " ++ fmt_usd bw,
        "- Net Bank Flow: " ++ fmt_usd nbf,
        "",
        "- Asset Purchases: " ++ fmt_usd ap,
        "- Asset Sales: " ++ fmt_usd asl,
        "- Net Trading: " ++ fmt_usd nt,
        "",
        "- Taxable Events: " ++ jStr te,
        "- Total Transactions: " ++ jStr tt] ++ yls))

/-! ## Tax report, prices, price history -/

/-- One rendered taxable-event line. -/
def evLine (ev : JVal) : Except Exc String := do
  let dtv ← jget ev "datetime" (.str "")
  let dt ← jSlice10 dtv
  let gainUsd ← jGetNumD ev "gainLossUsd" 0
  let gainRon ← jGetNumD ev "gainLossRon" 0
  let emoji := if 0 ≤ gainUsd then "+" else ""
  let txid ← jget ev "transactionId" (.str "?")
  pure ("- **" ++ dt ++ "** (TX #" ++ jStr txid ++ "): Gain/Loss " ++ emoji ++
    fmt_usd gainUsd ++ " / " ++ emoji ++ pyFixed true 2 gainRon ++ " RON")

def evNotice (n : Nat) : String :=
  "\n_Showing 30 of " ++ natToStr n ++ " events. Use JSON format for all._"

/-- The rendered taxable-event block: the first 30 events as received plus
the truncation notice when more were present. -/
def taxEventLines (events : List JVal) : Except Exc (List String) := do
  let body ← (events.take 30).mapM evLine
  pure (body ++ (if 30 < events.length then [evNotice events.length] else []))

/-- `portfolio_get_tax_report`, after the Gateway call. -/
def tax_md (p : GetTaxReportInput) (data : JVal) : Except Exc String :=
  if p.response_format = .json then .ok (dumps data)
  else do
    let events ← jget data "taxableEvents" (.arr .nil)
    let twu ← jGetNumD data "totalWithdrawalsUsd" 0
    let twr ← jGetNumD data "totalWithdrawalsRon" 0
    let tcu ← jGetNumD data "totalCostBasisUsd" 0
    let tcr ← jGetNumD data "totalCostBasisRon" 0
    let tgu ← jGetNumD data "totalGainLossUsd" 0
    let tgr ← jGetNumD data "totalGainLossRon" 0
    let evs ← jAsArr events
    let body ← taxEventLines evs
    pure (String.intercalate "\n"
      (["# Romania Tax Report - " ++ natToStr p.year, "",
        "**Strategy:** Asset=" ++ p.asset_strategy.value ++ ", Cash=" ++
          p.cash_strategy.value, "",
        "## Totals",
        "- **Total Withdrawals (USD):** " ++ fmt_usd twu,
        "- **Total Withdrawals (RON):** " ++ pyFixed true 2 twr ++ " RON",
        "- **Total Cost Basis (USD):** " ++ fmt_usd tcu,
        "- **Total Cost Basis (RON):** " ++ pyFixed true 2 tcr ++ " RON",
        "- **Total Gain/Loss (USD):** " ++ fmt_usd tgu,
        "- **Total Gain/Loss (RON):** " ++ pyFixed true 2 tgr ++ " RON",
        "",
        "## Taxable Events (" ++ natToStr evs.length ++ ")",
        ""] ++ body))

/-- `portfolio_get_prices`, after the Gateway call. -/
def prices_md (p : GetPricesInput) (data : JVal) : Except Exc String := do
  let prices ← jget data "prices" (.obj .nil)
  if jTruthy prices = false then
    pure ("No prices found for: " ++ p.symbols)
  else do
    let items ← jItemsSorted prices
    let ls ← items.mapM (fun pr => do
      let v ← asNum pr.2
      pure ("- **" ++ pr.1 ++ "**: " ++ fmt_usd v))
    pure (String.intercalate "\n" ("# Current Prices" :: "" :: ls))

/-- `portfolio_get_price_history`, after the Gateway call: always a
structured echo of count plus series. -/
def priceHistory_md (p : GetPriceHistoryInput) (data : JVal) : Except Exc String := do
  let prices ← jget data "prices" (.arr .nil)
  if jTruthy prices = false then
    pure ("No historical prices found for " ++ p.symbols ++ " in that range.")
  else do
    let n ← jLen prices
    pure (dumps (.obj (.cons "count" (.num n 0) (.cons "prices" prices .nil))))

/-! ## The Dispatcher: one handler per tool, all failures classified -/

inductive Tool where
  | getHoldings
  | getHistory
  | listPortfolios
  | listTransactions
  | addTransaction
  | deleteTransaction
  | getCashflow
  | getTaxReport
  | getPrices
  | getPriceHistory

def ParamsOf : Tool → Type
  | .getHoldings => GetHoldingsInput
  | .getHistory => GetHistoryInput
  | .listPortfolios => ListPortfoliosInput
  | .listTransactions => ListTransactionsInput
  | .addTransaction => AddTransactionInput
  | .deleteTransaction => DeleteTransactionInput
  | .getCashflow => GetCashflowInput
  | .getTaxReport => GetTaxReportInput
  | .getPrices => GetPricesInput
  | .getPriceHistory => GetPriceHistoryInput

/-- The whole `try` block of a handler, given the Gateway's outcome: the
payload (or the Gateway's failure) flows into the tool's formatter. -/
def bodyOf : (t : Tool) → ParamsOf t → Except Exc JVal → Except Exc String
  | .getHoldings, p, gw => gw.bind (holdings_md p)
  | .getHistory, p, gw => gw.bind (history_md p)
  | .listPortfolios, p, gw => gw.bind (portfolios_md p)
  | .listTransactions, p, gw => gw.bind (transactions_md p)
  | .addTransaction, p, gw => gw.bind (addTx_result p)
  | .deleteTransaction, p, gw => gw.bind (deleteTx_result p)
  | .getCashflow, p, gw => gw.bind (cashflow_md p)
  | .getTaxReport, p, gw => gw.bind (tax_md p)
  | .getPrices, p, gw => gw.bind (prices_md p)
  | .getPriceHistory, p, gw => gw.bind (priceHistory_md p)

/-- `try: ... except Exception as e: return _handle_error(e)`. -/
def runTool : Except Exc String → String
  | .ok s => s
  | .error e => _handle_error e

/-- A tool invocation after validation: the `try` body funnelled through
the Error Classifier. -/
def dispatch (t : Tool) (p : ParamsOf t) (gw : Except Exc JVal) : String :=
  runTool (bodyOf t p gw)

def portfolio_get_holdings (p : GetHoldingsInput) (gw : Except Exc JVal) : String :=
  dispatch .getHoldings p gw

def portfolio_get_history (p : GetHistoryInput) (gw : Except Exc JVal) : String :=
  dispatch .getHistory p gw

def portfolio_list_portfolios (p : ListPortfoliosInput) (gw : Except Exc JVal) :
    String :=
  dispatch .listPortfolios p gw

def portfolio_list_transactions (p : ListTransactionsInput) (gw : Except Exc JVal) :
    String :=
  dispatch .listTransactions p gw

def portfolio_add_transaction (p : AddTransactionInput) (gw : Except Exc JVal) :
    String :=
  dispatch .addTransaction p gw

def portfolio_delete_transaction (p : DeleteTransactionInput)
    (gw : Except Exc JVal) : String :=
  dispatch .deleteTransaction p gw

def portfolio_get_cashflow (p : GetCashflowInput) (gw : Except Exc JVal) : String :=
  dispatch .getCashflow p gw

def portfolio_get_tax_report (p : GetTaxReportInput) (gw : Except Exc JVal) :
    String :=
  dispatch .getTaxReport p gw

def portfolio_get_prices (p : GetPricesInput) (gw : Except Exc JVal) : String :=
  dispatch .getPrices p gw

def portfolio_get_price_history (p : GetPriceHistoryInput) (gw : Except Exc JVal) :
    String :=
  dispatch .getPriceHistory p gw

/-! ## Claims about the dispatcher and the structured echo -/

theorem errPrefix (x : String) : ∃ r, "Error: " ++ x = "Error:" ++ r :=
  ⟨" " ++ x, by
    rw [← strAssoc]
    rw [show ("Error:" ++ " " : String) = "Error: " from by decide]⟩

theorem handle_error_prefix (e : Exc) : ∃ r, _handle_error e = "Error:" ++ r := by
  cases e with
  | httpStatus status body text => exact errPrefix _
  | timeout =>
    exact ⟨" Request timed out. Is your Portfolio Tracker running?", by decide⟩
  | connectError =>
    exact ⟨" Cannot connect to http://localhost:3000. Make sure your Portfolio Tracker Web is running.",
      by decide⟩
  | other name msg =>
    show ∃ r, "Error: " ++ name ++ ": " ++ msg = "Error:" ++ r
    rw [strAssoc, strAssoc]
    exact errPrefix _

/-- **C1.** For every tool handler and every exception raised after
validation — by the Gateway call or during payload formatting — the handler
does not propagate it: the whole `try` body fails with that exception, the
handler returns the Error Classifier's string for it, and that string
begins with the `"Error:"` prefix. -/
theorem C1_handlers_never_propagate (t : Tool) (p : ParamsOf t)
    (gw : Except Exc JVal) (e : Exc)
    (h : gw = .error e ∨ bodyOf t p gw = .error e) :
    bodyOf t p gw = .error e ∧ dispatch t p gw = _handle_error e ∧
      ∃ r, _handle_error e = "Error:" ++ r := by
  have hbody : bodyOf t p gw = .error e := by
    rcases h with rfl | h
    · cases t <;> rfl
    · exact h
  refine ⟨hbody, ?_, handle_error_prefix e⟩
  unfold dispatch
  rw [hbody]
  rfl

/-- Witness for C1: a timed-out holdings call returns the classifier's
string, which carries the prefix. -/
theorem C1_handlers_never_propagate_witness :
    dispatch .getHoldings (⟨1, .markdown⟩ : GetHoldingsInput)
        (.error .timeout) = _handle_error .timeout ∧
      ∃ r, _handle_error .timeout = "Error:" ++ r :=
  (C1_handlers_never_propagate .getHoldings (⟨1, .markdown⟩ : GetHoldingsInput)
    (.error .timeout) .timeout (Or.inl rfl)).2

/-- **C9.** Every tool with an output-mode flag, invoked in structured
(JSON) mode, echoes the backend payload verbatim through `json.dumps`, and
parsing that string back yields the original payload: the structured echo
is a lossless round trip. -/
theorem C9_structured_lossless (d : JVal) (pid days year : Nat)
    (opid : Option Nat) (a c : TaxStrategy) :
    holdings_md ⟨pid, .json⟩ d = .ok (dumps d) ∧
    history_md ⟨pid, days, .json⟩ d = .ok (dumps d) ∧
    portfolios_md ⟨.json⟩ d = .ok (dumps d) ∧
    transactions_md ⟨opid, .json⟩ d = .ok (dumps d) ∧
    cashflow_md ⟨pid, .json⟩ d = .ok (dumps d) ∧
    tax_md ⟨year, opid, a, c, .json⟩ d = .ok (dumps d) ∧
    parseJson (dumps d) = some d :=
  ⟨rfl, rfl, rfl, rfl, rfl, rfl, parseJson_dumps d⟩

/-- **C10.** In the holdings tool the output-mode branch precedes the
empty-holdings check: in JSON mode an empty-holdings payload is echoed as
JSON, while the sentinel sentence appears only in narrative mode. -/
theorem C10_json_branch_before_empty_check (pid : Nat) (fs : JObj)
    (hempty : jTruthy ((jLookup fs "holdings").getD (.arr .nil)) = false) :
    portfolio_get_holdings ⟨pid, .json⟩ (.ok (.obj fs)) = dumps (.obj fs) ∧
    portfolio_get_holdings ⟨pid, .markdown⟩ (.ok (.obj fs)) =
      "Portfolio is empty - no holdings found." := by
  constructor
  · rfl
  · show runTool (holdings_md ⟨pid, .markdown⟩ (.obj fs)) = _
    unfold holdings_md
    have hne : (⟨pid, ResponseFormat.markdown⟩ : GetHoldingsInput).response_format ≠
        ResponseFormat.json := fun hc => ResponseFormat.noConfusion hc
    rw [if_neg hne]
    show runTool ((jget (.obj fs) "summary" (.obj .nil)).bind fun _ =>
      (jget (.obj fs) "holdings" (.arr .nil)).bind fun holdings =>
        if jTruthy holdings = false then
          pure "Portfolio is empty - no holdings found."
        else _) = _
    rw [show jget (.obj fs) "summary" (.obj .nil) =
      .ok ((jLookup fs "summary").getD (.obj .nil)) from rfl]
    rw [show jget (.obj fs) "holdings" (.arr .nil) =
      .ok ((jLookup fs "holdings").getD (.arr .nil)) from rfl]
    show runTool (if jTruthy ((jLookup fs "holdings").getD (.arr .nil)) = false
      then pure "Portfolio is empty - no holdings found." else _) = _
    rw [if_pos hempty]
    rfl

/-- Witness for C10 at a concrete empty-holdings payload. -/
theorem C10_json_branch_before_empty_check_witness :
    portfolio_get_holdings ⟨1, .json⟩
        (.ok (.obj (.cons "holdings" (.arr .nil) .nil))) =
      dumps (.obj (.cons "holdings" (.arr .nil) .nil)) ∧
    portfolio_get_holdings ⟨1, .markdown⟩
        (.ok (.obj (.cons "holdings" (.arr .nil) .nil))) =
      "Portfolio is empty - no holdings found." :=
  C10_json_branch_before_empty_check 1 (.cons "holdings" (.arr .nil) .nil)
    (by decide)

/-! ## Evaluation lemmas for the formatters at concrete values -/

theorem roundHalfEven_natCast (n : Nat) : roundHalfEven ((n : Nat) : ℚ) = n := by
  unfold roundHalfEven
  rw [ratFloor_eq, Int.floor_natCast]
  rw [if_pos (by push_cast; norm_num)]

theorem pyFixed_natCast (sep : Bool) (d n : Nat) :
    pyFixed sep d ((n : Nat) : ℚ) =
      ⟨intChars sep (n * 10 ^ d / 10 ^ d) ++
        (if d = 0 then [] else '.' :: fracChars d (n * 10 ^ d % 10 ^ d))⟩ := by
  simp only [pyFixed]
  rw [show pyAbs ((n : Nat) : ℚ) * 10 ^ d = (((n * 10 ^ d : Nat)) : ℚ) from by
    rw [pyAbs_eq, abs_of_nonneg (by positivity)]
    push_cast
    ring]
  rw [roundHalfEven_natCast]
  rw [if_neg (not_lt.mpr (by positivity : (0 : ℚ) ≤ ((n : Nat) : ℚ)))]
  rw [show ((n * 10 ^ d : Nat) : Int).toNat = n * 10 ^ d from by
    rw [Int.toNat_natCast]]
  rfl

/-- A fuel-indexed, kernel-reducible copy of `natDigitsRev`, for
evaluating the formatters at concrete inputs. -/
def natDigitsRevFuel : Nat → Nat → List Char
  | 0, _ => []
  | fuel + 1, n =>
    if n < 10 then [Nat.digitChar n]
    else Nat.digitChar (n % 10) :: natDigitsRevFuel fuel (n / 10)

theorem natDigitsRevFuel_eq : ∀ (fuel n : Nat), n < fuel →
    natDigitsRevFuel fuel n = natDigitsRev n := by
  intro fuel
  induction fuel with
  | zero => intro n h; omega
  | succ f ih =>
    intro n h
    rw [natDigitsRevFuel]
    by_cases h10 : n < 10
    · rw [if_pos h10, natDigitsRev_of_small h10]
    · rw [if_neg h10]
      rw [natDigitsRev, dif_neg h10]
      have hlt : n / 10 < n := Nat.div_lt_self (by omega) (by omega)
      rw [ih (n / 10) (by omega)]

theorem natDigitsRev_eval (n : Nat) : natDigitsRev n = natDigitsRevFuel (n + 1) n :=
  (natDigitsRevFuel_eq (n + 1) n (by omega)).symm

theorem fmt_pct_zero : fmt_pct 0 = "+0.00%" := by
  unfold fmt_pct
  rw [if_pos (le_refl (0 : ℚ))]
  rw [show (0 : ℚ) = ((0 : Nat) : ℚ) from by norm_num]
  rw [pyFixed_natCast false 2 0]
  simp only [intChars, natDigitsRev_eval]
  decide

/-- **C5.** When the first entry of a non-empty value history has total
value zero, the guarded percent change is `0` (no division), and the
rendered change line shows `+0.00%`. -/
theorem C5_zero_first_value_pct (days : Nat) (lastv : ℚ) (d0 d1 : JVal)
    (entries : List String) (firstv : ℚ) (h : firstv = 0) :
    historyChangePct firstv lastv = 0 ∧
    fmt_pct (historyChangePct firstv lastv) = "+0.00%" ∧
    ("**Change:** " ++ fmt_usd (lastv - firstv) ++ " (+0.00%)") ∈
      historyLines days firstv lastv d0 d1 entries := by
  subst h
  have h1 : historyChangePct 0 lastv = 0 := by
    unfold historyChangePct
    rw [if_neg (lt_irrefl 0)]
  have h2 : fmt_pct (0 : ℚ) = "+0.00%" := fmt_pct_zero
  refine ⟨h1, by rw [h1]; exact h2, ?_⟩
  unfold historyLines
  rw [h1, h2]
  have h3 : ("**Change:** " ++ fmt_usd (lastv - 0) ++ " (") ++ "+0.00%" ++ ")" =
      "**Change:** " ++ fmt_usd (lastv - 0) ++ " (+0.00%)" := by
    rw [strAssoc ("**Change:** " ++ fmt_usd (lastv - 0)) " (" "+0.00%"]
    rw [strAssoc ("**Change:** " ++ fmt_usd (lastv - 0)) (" (" ++ "+0.00%") ")"]
    rw [strAssoc " (" "+0.00%" ")"]
    rw [show (" (" ++ ("+0.00%" ++ ")") : String) = " (+0.00%)" from by decide]
  rw [h3]
  simp

/-- Witness for C5: a single-entry history whose only value is zero. -/
theorem C5_zero_first_value_pct_witness :
    historyChangePct 0 0 = 0 ∧
    fmt_pct (historyChangePct 0 0) = "+0.00%" ∧
    ("**Change:** " ++ fmt_usd (0 - 0) ++ " (+0.00%)") ∈
      historyLines 7 0 0 (.str "2025-01-01") (.str "2025-01-01")
        ["- 2025-01-01: $0.000000"] :=
  C5_zero_first_value_pct 7 0 (.str "2025-01-01") (.str "2025-01-01")
    ["- 2025-01-01: $0.000000"] 0 rfl

/-! ## Substring search and evaluation of the transaction rendering -/

/-- Whether the first list is a prefix of the second. -/
def listPre : List Char → List Char → Bool
  | [], _ => true
  | _ :: _, [] => false
  | a :: as_, b :: bs => a = b && listPre as_ bs

/-- Whether `sub` occurs contiguously inside the second list. -/
def listSub (sub : List Char) : List Char → Bool
  | [] => listPre sub []
  | c :: cs => listPre sub (c :: cs) || listSub sub cs

/-- Whether `sub` occurs as a substring of `s` ("the output shows X"). -/
def strContains (s sub : String) : Bool := listSub sub.data s.data

theorem listPre_refl_append : ∀ (l r : List Char), listPre l (l ++ r) = true := by
  intro l
  induction l with
  | nil => intro r; rfl
  | cons a as_ ih =>
    intro r
    show (a = a && listPre as_ (as_ ++ r)) = true
    rw [ih r]
    simp

theorem listSub_of_append : ∀ (l sub r : List Char),
    listSub sub (l ++ (sub ++ r)) = true := by
  intro l
  induction l with
  | nil =>
    intro sub r
    cases sub with
    | nil =>
      cases r with
      | nil => rfl
      | cons c cs => rfl
    | cons c cs =>
      show (listPre (c :: cs) ((c :: cs) ++ r) || _) = true
      rw [listPre_refl_append]
      rfl
  | cons c cs ih =>
    intro sub r
    show (listPre sub ((c :: cs) ++ (sub ++ r)) || listSub sub (cs ++ (sub ++ r))) = true
    rw [ih sub r]
    simp

/-- `sub` occurs in `pre ++ sub ++ post`. -/
theorem strContains_append (pre sub post : String) :
    strContains (pre ++ (sub ++ post)) sub = true := by
  unfold strContains
  rw [show (pre ++ (sub ++ post)).data = pre.data ++ (sub.data ++ post.data) from rfl]
  exact listSub_of_append pre.data sub.data post.data

theorem exc_bind_ok {α β : Type} (x : α) (f : α → Except Exc β) :
    (Except.ok x : Except Exc α) >>= f = f x := rfl

theorem exc_bind_ok_iff {α β : Type} {x : Except Exc α} {f : α → Except Exc β}
    {y : β} : x.bind f = .ok y ↔ ∃ a, x = .ok a ∧ f a = .ok y := by
  cases x with
  | ok a => simp [Except.bind]
  | error e => simp [Except.bind]

theorem asNum_int0 (m : Int) : asNum (.num m 0) = .ok ((m : ℚ)) := by
  unfold asNum
  norm_num

theorem fmt_qty_zero : fmt_qty 0 = "0.00000000" := by
  unfold fmt_qty
  rw [if_neg (by rw [pyAbs_eq]; norm_num), if_neg (by rw [pyAbs_eq]; norm_num)]
  rw [show (0 : ℚ) = ((0 : Nat) : ℚ) from by norm_num]
  rw [pyFixed_natCast false 8 0]
  simp only [intChars, natDigitsRev_eval]
  decide

theorem fmt_usd_100 : fmt_usd (((100 : Int) : ℚ)) = "$100.00" := by
  unfold fmt_usd
  rw [if_pos (by rw [pyAbs_eq]; norm_num)]
  rw [show (((100 : Int) : ℚ)) = ((100 : Nat) : ℚ) from by norm_num]
  rw [pyFixed_natCast true 2 100]
  simp only [intChars, natDigitsRev_eval]
  rw [show groupRev (natDigitsRevFuel (100 * 10 ^ 2 / 10 ^ 2 + 1) (100 * 10 ^ 2 / 10 ^ 2)) =
    ['0', '0', '1'] from by decide]
  decide

theorem jStr_num7 : jStr (.num 7 0) = "7" := by
  show (⟨printNum 7 0⟩ : String) = "7"
  rw [show printNum 7 0 = ['7'] from by
    unfold printNum printUNum
    rw [natDigitsRev_eval]
    decide]

/-- **C3 (counterexample).** A Withdrawal transaction whose payload carries
a unit price (`toPriceUsd = 100`, truthy): the rendered line shows quantity
and asset but not the price — `$100.00` does not occur in the line. -/
theorem C3_counterexample_withdrawal_price :
    jidx (JVal.obj (.cons "id" (.num 7 0) (.cons "type" (.str "Withdrawal")
        (.cons "datetime" (.str "2025-01-02T00:00:00Z") (.cons "toAsset" (.str "BTC")
          (.cons "toPriceUsd" (.num 100 0) .nil)))))) "toPriceUsd" =
      .ok (.num 100 0) ∧
    fmt_usd (((100 : Int) : ℚ)) = "$100.00" ∧
    txLine (JVal.obj (.cons "id" (.num 7 0) (.cons "type" (.str "Withdrawal")
        (.cons "datetime" (.str "2025-01-02T00:00:00Z") (.cons "toAsset" (.str "BTC")
          (.cons "toPriceUsd" (.num 100 0) .nil)))))) =
      .ok "- **2025-01-02** [Withdrawal] Withdraw 0.00000000 BTC (ID: 7)" ∧
    strContains "- **2025-01-02** [Withdrawal] Withdraw 0.00000000 BTC (ID: 7)"
      "$100.00" = false := by
  refine ⟨rfl, fmt_usd_100, ?_, by decide⟩
  have h0 : txLine (JVal.obj (.cons "id" (.num 7 0) (.cons "type" (.str "Withdrawal")
      (.cons "datetime" (.str "2025-01-02T00:00:00Z") (.cons "toAsset" (.str "BTC")
        (.cons "toPriceUsd" (.num 100 0) .nil)))))) =
      .ok ("- **" ++ "2025-01-02" ++ "** [" ++ "Withdrawal" ++ "] " ++
        ("Withdraw " ++ fmt_qty 0 ++ " " ++ "BTC") ++ "" ++ "" ++ " (ID: " ++
        jStr (.num 7 0) ++ ")") := rfl
  rw [h0, fmt_qty_zero, jStr_num7]
  exact congrArg Except.ok (by decide)

/-- **C3 (amended).** In the narrative transaction list, a Deposit line
shows the quantity, the asset and — when a truthy unit price is present —
that price; a line of any other non-Swap kind (Withdrawal included) shows
only the quantity and the asset: the unit price is never rendered for
withdrawals. -/
theorem C3_desc_shapes (tx ty tav pv : JVal) (tq pr : ℚ)
    (hty : jget tx "type" (.str "?") = .ok ty)
    (htq : jGetNumD tx "toQuantity" 0 = .ok tq)
    (hta : jget tx "toAsset" (.str "?") = .ok tav) :
    (jEqStr ty "Deposit" = true →
      jget tx "toPriceUsd" .null = .ok pv → jTruthy pv = true →
      (jidx tx "toPriceUsd" >>= asNum) = .ok pr →
      txDesc tx = .ok ("Deposit " ++ fmt_qty tq ++ " " ++ jStr tav ++ " @ " ++
        fmt_usd pr)) ∧
    (jEqStr ty "Swap" = false → jEqStr ty "Deposit" = false →
      txDesc tx = .ok ("Withdraw " ++ fmt_qty tq ++ " " ++ jStr tav)) := by
  constructor
  · intro hdep hpv hpvT hpr
    have hswap : jEqStr ty "Swap" = false := by
      cases ty with
      | str t =>
        have ht : t = "Deposit" := by simpa [jEqStr] using hdep
        simp [jEqStr, ht]
      | null => rfl
      | bool b => rfl
      | num m e => rfl
      | arr xs => rfl
      | obj fs => rfl
    unfold txDesc
    rw [hty, exc_bind_ok]
    rw [if_neg (by rw [hswap]; simp)]
    rw [if_pos (by rw [hdep])]
    rw [htq, exc_bind_ok, hta, exc_bind_ok, hpv, exc_bind_ok]
    rw [if_pos (by rw [hpvT])]
    rw [hpr, exc_bind_ok]
    rfl
  · intro hswap hdep
    unfold txDesc
    rw [hty, exc_bind_ok]
    rw [if_neg (by rw [hswap]; simp)]
    rw [if_neg (by rw [hdep]; simp)]
    rw [htq, exc_bind_ok, hta, exc_bind_ok]
    rfl

/-- Witness for the amended C3: a concrete Deposit with a price and a
concrete Withdrawal. -/
theorem C3_desc_shapes_witness :
    txDesc (JVal.obj (.cons "type" (.str "Deposit") (.cons "toAsset" (.str "BTC")
        (.cons "toPriceUsd" (.num 100 0) .nil)))) =
      .ok ("Deposit " ++ fmt_qty 0 ++ " " ++ jStr (.str "BTC") ++ " @ " ++
        fmt_usd (((100 : Int) : ℚ) / 10 ^ (0 : Nat))) ∧
    txDesc (JVal.obj (.cons "type" (.str "Withdrawal") (.cons "toAsset" (.str "ETH")
        (.cons "toPriceUsd" (.num 50 0) .nil)))) =
      .ok ("Withdraw " ++ fmt_qty 0 ++ " " ++ jStr (.str "ETH")) :=
  ⟨(C3_desc_shapes (JVal.obj (.cons "type" (.str "Deposit") (.cons "toAsset"
      (.str "BTC") (.cons "toPriceUsd" (.num 100 0) .nil))))
      (.str "Deposit") (.str "BTC") (.num 100 0) 0
      (((100 : Int) : ℚ) / 10 ^ (0 : Nat)) rfl rfl rfl).1 rfl rfl rfl rfl,
   (C3_desc_shapes (JVal.obj (.cons "type" (.str "Withdrawal") (.cons "toAsset"
      (.str "ETH") (.cons "toPriceUsd" (.num 50 0) .nil))))
      (.str "Withdrawal") (.str "ETH") .null 0 0 rfl rfl rfl).2 rfl rfl⟩

/-! ## C4: truncation notices -/

theorem exc_bind_ok_iff2 {α β : Type} {x : Except Exc α} {f : α → Except Exc β}
    {y : β} : (x >>= f) = .ok y ↔ ∃ a, x = .ok a ∧ f a = .ok y := by
  cases x with
  | ok a => simp [Bind.bind, Except.bind]
  | error e => simp [Bind.bind, Except.bind]

theorem mapM_ok_length {f : JVal → Except Exc String} :
    ∀ {l : List JVal} {ys : List String}, l.mapM f = .ok ys → ys.length = l.length := by
  intro l
  induction l with
  | nil =>
    intro ys h
    rw [List.mapM_nil] at h
    have h4 : (Except.ok ([] : List String) : Except Exc (List String)) = .ok ys := h
    injection h4 with h5
    simp [← h5]
  | cons x xs ih =>
    intro ys h
    rw [List.mapM_cons] at h
    rcases exc_bind_ok_iff2.mp h with ⟨y, hy, h2⟩
    rcases exc_bind_ok_iff2.mp h2 with ⟨ys2, hys2, h3⟩
    have h4 : (Except.ok (y :: ys2) : Except Exc (List String)) = .ok ys := h3
    injection h4 with h5
    rw [← h5]
    simp [ih hys2]

theorem mapM_ok_forall {f : JVal → Except Exc String} :
    ∀ {l : List JVal} {ys : List String}, l.mapM f = .ok ys →
      ∀ s ∈ ys, ∃ x ∈ l, f x = .ok s := by
  intro l
  induction l with
  | nil =>
    intro ys h s hs
    rw [List.mapM_nil] at h
    have h4 : (Except.ok ([] : List String) : Except Exc (List String)) = .ok ys := h
    injection h4 with h5
    rw [← h5] at hs
    simp at hs
  | cons x xs ih =>
    intro ys h s hs
    rw [List.mapM_cons] at h
    rcases exc_bind_ok_iff2.mp h with ⟨y, hy, h2⟩
    rcases exc_bind_ok_iff2.mp h2 with ⟨ys2, hys2, h3⟩
    have h4 : (Except.ok (y :: ys2) : Except Exc (List String)) = .ok ys := h3
    injection h4 with h5
    rw [← h5] at hs
    rcases List.mem_cons.mp hs with rfl | hs
    · exact ⟨x, by simp, hy⟩
    · obtain ⟨x2, hx2, hfx2⟩ := ih hys2 s hs
      exact ⟨x2, by simp [hx2], hfx2⟩

theorem txLine_shape {tx : JVal} {s : String} (h : txLine tx = .ok s) :
    ∃ r, s = "- **" ++ r := by
  unfold txLine at h
  rcases exc_bind_ok_iff2.mp h with ⟨dtv, -, h⟩
  rcases exc_bind_ok_iff2.mp h with ⟨dt, -, h⟩
  rcases exc_bind_ok_iff2.mp h with ⟨ttype, -, h⟩
  rcases exc_bind_ok_iff2.mp h with ⟨desc, -, h⟩
  rcases exc_bind_ok_iff2.mp h with ⟨feesJ, -, h⟩
  rcases exc_bind_ok_iff2.mp h with ⟨fees, -, h⟩
  rcases exc_bind_ok_iff2.mp h with ⟨notesJ, -, h⟩
  rcases exc_bind_ok_iff2.mp h with ⟨notes, -, h⟩
  rcases exc_bind_ok_iff2.mp h with ⟨idv, -, h⟩
  have h4 : (Except.ok ("- **" ++ dt ++ "** [" ++ jStr ttype ++ "] " ++ desc ++
      fees ++ notes ++ " (ID: " ++ jStr idv ++ ")") : Except Exc String) = .ok s := h
  injection h4 with h5
  refine ⟨dt ++ ("** [" ++ (jStr ttype ++ ("] " ++ (desc ++ (fees ++ (notes ++
    (" (ID: " ++ (jStr idv ++ ")")))))))), ?_⟩
  rw [← h5]
  simp only [strAssoc]

theorem evLine_shape {ev : JVal} {s : String} (h : evLine ev = .ok s) :
    ∃ r, s = "- **" ++ r := by
  unfold evLine at h
  rcases exc_bind_ok_iff2.mp h with ⟨dtv, -, h⟩
  rcases exc_bind_ok_iff2.mp h with ⟨dt, -, h⟩
  rcases exc_bind_ok_iff2.mp h with ⟨gu, -, h⟩
  rcases exc_bind_ok_iff2.mp h with ⟨gr, -, h⟩
  rcases exc_bind_ok_iff2.mp h with ⟨txid, -, h⟩
  have h4 : (Except.ok ("- **" ++ dt ++ "** (TX #" ++ jStr txid ++ "): Gain/Loss " ++
      (if 0 ≤ gu then "+" else "") ++ fmt_usd gu ++ " / " ++
      (if 0 ≤ gu then "+" else "") ++ pyFixed true 2 gr ++ " RON") :
        Except Exc String) = .ok s := h
  injection h4 with h5
  refine ⟨dt ++ ("** (TX #" ++ (jStr txid ++ ("): Gain/Loss " ++
    ((if 0 ≤ gu then "+" else "") ++ (fmt_usd gu ++ (" / " ++
    ((if 0 ≤ gu then "+" else "") ++ (pyFixed true 2 gr ++ " RON")))))))), ?_⟩
  rw [← h5]
  simp only [strAssoc]

theorem str_head_ne {s t : String} {c c2 : Char} (hs : ∃ r, s.data = c :: r)
    (ht : ∃ r, t.data = c2 :: r) (hne : c ≠ c2) : s ≠ t := by
  intro he
  obtain ⟨r, hr⟩ := hs
  obtain ⟨r2, hr2⟩ := ht
  rw [he, hr2] at hr
  exact hne (List.head_eq_of_cons_eq hr.symm)

theorem prefix_data_head (p s : String) (c : Char) (r : List Char)
    (h : p.data = c :: r) : ∃ r2, (p ++ s).data = c :: r2 :=
  ⟨r ++ s.data, by rw [show (p ++ s).data = p.data ++ s.data from rfl, h]; rfl⟩

/-- **C4.** The narrative transaction list and taxable-event block append
their truncation notice if and only if the collection exceeds its cap (50
transactions, 30 events), and the body holds at most that many entries:
the last 50 transactions, the first 30 events as received. -/
theorem C4_truncation_notices (data events : List JVal) (body bodyE : List String)
    (hb : (last50 data).mapM txLine = .ok body)
    (he : (events.take 30).mapM evLine = .ok bodyE) :
    txLines data = .ok (("# Transactions (" ++ natToStr data.length ++ " total)") ::
        "" :: (body ++ (if 50 < data.length then [txNotice data.length] else []))) ∧
    body.length = min data.length 50 ∧
    (txNotice data.length ∈
        (("# Transactions (" ++ natToStr data.length ++ " total)") :: "" ::
          (body ++ (if 50 < data.length then [txNotice data.length] else []))) ↔
      50 < data.length) ∧
    taxEventLines events = .ok
      (bodyE ++ (if 30 < events.length then [evNotice events.length] else [])) ∧
    bodyE.length = min events.length 30 ∧
    (evNotice events.length ∈
        (bodyE ++ (if 30 < events.length then [evNotice events.length] else [])) ↔
      30 < events.length) := by
  have hTxNoticeHead : ∀ n, ∃ r, (txNotice n).data = '\n' :: r := fun n => ⟨_, rfl⟩
  have hEvNoticeHead : ∀ n, ∃ r, (evNotice n).data = '\n' :: r := fun n => ⟨_, rfl⟩
  refine ⟨?_, ?_, ?_, ?_, ?_, ?_⟩
  · unfold txLines
    rw [hb, exc_bind_ok]
    rfl
  · have h1 := mapM_ok_length hb
    have h2 : (last50 data).length = data.length - (data.length - 50) := by
      unfold last50
      exact List.length_drop _ _
    omega
  · constructor
    · intro hmem
      by_contra h50
      rw [if_neg h50, List.append_nil] at hmem
      rcases List.mem_cons.mp hmem with heq | hmem
      · exact absurd heq (str_head_ne (hTxNoticeHead _)
          (prefix_data_head "# Transactions (" _ '#' _ rfl) (by decide))
      rcases List.mem_cons.mp hmem with heq | hmem
      · obtain ⟨r, hr⟩ := hTxNoticeHead data.length
        rw [heq] at hr
        exact absurd hr (by simp [String.data])
      · obtain ⟨tx, -, htx⟩ := mapM_ok_forall hb _ hmem
        obtain ⟨r, hr⟩ := txLine_shape htx
        refine absurd (hr ▸ rfl : txNotice data.length = "- **" ++ r)
          (str_head_ne (hTxNoticeHead _) (prefix_data_head "- **" _ '-' _ rfl)
            (by decide))
    · intro h50
      rw [if_pos h50]
      exact List.mem_cons_of_mem _ (List.mem_cons_of_mem _
        (List.mem_append.mpr (Or.inr (by simp))))
  · unfold taxEventLines
    rw [he, exc_bind_ok]
    rfl
  · have h1 := mapM_ok_length he
    have h2 : (events.take 30).length = min 30 events.length := List.length_take _ _
    omega
  · constructor
    · intro hmem
      by_contra h30
      rw [if_neg h30, List.append_nil] at hmem
      obtain ⟨ev, -, hev⟩ := mapM_ok_forall he _ hmem
      obtain ⟨r, hr⟩ := evLine_shape hev
      exact absurd (hr ▸ rfl : evNotice events.length = "- **" ++ r)
        (str_head_ne (hEvNoticeHead _) (prefix_data_head "- **" _ '-' _ rfl)
          (by decide))
    · intro h30
      rw [if_pos h30]
      exact List.mem_append.mpr (Or.inr (by simp))

/-- Witness for C4 at the empty collections. -/
theorem C4_truncation_notices_witness :
    txLines [] = .ok (("# Transactions (" ++ natToStr (List.length ([] : List JVal)) ++
        " total)") :: "" :: (([] : List String) ++
        (if 50 < List.length ([] : List JVal) then [txNotice (List.length ([] : List JVal))] else []))) ∧
    (([] : List String).length = min (List.length ([] : List JVal)) 50) ∧
    (txNotice (List.length ([] : List JVal)) ∈
        (("# Transactions (" ++ natToStr (List.length ([] : List JVal)) ++ " total)") :: "" ::
          (([] : List String) ++
            (if 50 < List.length ([] : List JVal) then [txNotice (List.length ([] : List JVal))] else []))) ↔
      50 < List.length ([] : List JVal)) ∧
    taxEventLines [] = .ok (([] : List String) ++
      (if 30 < List.length ([] : List JVal) then [evNotice (List.length ([] : List JVal))] else [])) ∧
    (([] : List String).length = min (List.length ([] : List JVal)) 30) ∧
    (evNotice (List.length ([] : List JVal)) ∈
        (([] : List String) ++
          (if 30 < List.length ([] : List JVal) then [evNotice (List.length ([] : List JVal))] else [])) ↔
      30 < List.length ([] : List JVal)) :=
  C4_truncation_notices [] [] [] [] rfl rfl

/-! ## The Validation Layer (pydantic input models) -/

/-- ASCII whitespace stripped by Python `str.strip()` and by pydantic
`str_strip_whitespace=True` (the inputs of interest are ASCII). -/
def isPySpace (c : Char) : Bool :=
  c = ' ' || c = '\t' || c = '\n' || c = '\r' || c = '\x0b' || c = '\x0c'

/-- Python `str.strip()`. -/
def pyStrip (s : String) : String :=
  ⟨((s.data.dropWhile isPySpace).reverse.dropWhile isPySpace).reverse⟩

/-- Python `str.upper()` (the inputs of interest are ASCII). -/
def pyUpper (s : String) : String :=
  ⟨s.data.map Char.toUpper⟩

/-- Python `v.split(",")`: cuts at every comma, keeping empty segments. -/
def splitCommaAux : List Char → List Char → List String
  | [], acc => [⟨acc.reverse⟩]
  | c :: cs, acc =>
      if c = ',' then ⟨acc.reverse⟩ :: splitCommaAux cs []
      else splitCommaAux cs (c :: acc)

/-- Python `v.split(",")` on a string. -/
def pySplitComma (s : String) : List String :=
  splitCommaAux s.data []

/-- Python `",".join(l)`. -/
def joinComma : List String → String
  | [] => ""
  | [s] => s
  | s :: tl => s ++ "," ++ joinComma tl

/-- `GetPricesInput.validate_symbols`:
`",".join(s.strip().upper() for s in v.split(",") if s.strip())`. -/
def validate_symbols (v : String) : String :=
  joinComma (((pySplitComma v).filter fun s => !(pyStrip s).isEmpty).map
    fun s => pyUpper (pyStrip s))

/-- One entry of a pydantic `ValidationError`: the offending field and the
reason code. -/
structure VErr where
  field : String
  reason : String

/-- The pydantic pipeline for `GetPricesInput`: `str_strip_whitespace=True`
strips the raw value, the declared `min_length=1` and `max_length=200`
bounds check that stripped raw value, and only then does the after-mode
field validator normalize it — its result is not re-checked against the
bounds. (Model slack: pydantic reports all failing fields at once; with a
single constrained field the first-error `Except` is equivalent.) -/
def validateGetPrices (raw : String) : Except VErr GetPricesInput :=
  if (pyStrip raw).length < 1 then .error ⟨"symbols", "string_too_short"⟩
  else if 200 < (pyStrip raw).length then .error ⟨"symbols", "string_too_long"⟩
  else .ok ⟨validate_symbols (pyStrip raw)⟩

/-- FastMCP entry for the current-prices tool: the input model is validated
before the tool body runs, so the Gateway `gw` is consulted only when
validation succeeds. -/
def get_prices_entry (raw : String) (gw : GetPricesInput → Except Exc JVal) :
    Except VErr String :=
  (validateGetPrices raw).map fun p => portfolio_get_prices p (gw p)

/-- **C2 counterexample.** The claim says a `symbols` input with no
non-whitespace segment between commas fails validation before any network
call; in the code the input `","` (length 1 after stripping, so it passes
`min_length=1`) raises no `ValidationError`: the after-mode validator
normalizes the field to the empty string and the Gateway call proceeds. -/
theorem C2_counterexample_comma :
    validateGetPrices "," = .ok ⟨""⟩ ∧
    ∀ gw, get_prices_entry "," gw = .ok (portfolio_get_prices ⟨""⟩ (gw ⟨""⟩)) :=
  ⟨rfl, fun _ => rfl⟩

/-- **C2 (amended).** Validation of the `symbols` field fails exactly when
the whitespace-stripped raw input is empty or longer than 200 characters;
otherwise it succeeds with the normalized join, which may itself be empty,
because the length bounds are checked before the normalizing validator
runs. On a validation failure the Gateway is never consulted: the entry
result does not depend on it. -/
theorem C2_symbols_validation (raw : String) :
    ((∃ e, validateGetPrices raw = .error e) ↔
      ((pyStrip raw).length = 0 ∨ 200 < (pyStrip raw).length)) ∧
    (¬ ((pyStrip raw).length = 0 ∨ 200 < (pyStrip raw).length) →
      validateGetPrices raw = .ok ⟨validate_symbols (pyStrip raw)⟩) ∧
    ∀ e, validateGetPrices raw = .error e →
      ∀ gw gw2, get_prices_entry raw gw = get_prices_entry raw gw2 := by
  refine ⟨⟨?_, ?_⟩, ?_, ?_⟩
  · rintro ⟨e, he⟩
    unfold validateGetPrices at he
    by_cases h1 : (pyStrip raw).length < 1
    · exact Or.inl (by omega)
    · rw [if_neg h1] at he
      by_cases h2 : 200 < (pyStrip raw).length
      · exact Or.inr h2
      · rw [if_neg h2] at he
        exact absurd he (by simp)
  · intro h
    unfold validateGetPrices
    rcases h with h | h
    · rw [if_pos (by omega)]
      exact ⟨_, rfl⟩
    · by_cases h1 : (pyStrip raw).length < 1
      · rw [if_pos h1]
        exact ⟨_, rfl⟩
      · rw [if_neg h1, if_pos h]
        exact ⟨_, rfl⟩
  · intro hnot
    push_neg at hnot
    unfold validateGetPrices
    rw [if_neg (by omega), if_neg (by omega)]
  · intro e he gw gw2
    unfold get_prices_entry
    rw [he]
    rfl

/-- The raw (pre-validation) shape of an add-transaction request. -/
structure AddTransactionRaw where
  portfolio_id : Int
  type : TransactionType
  datetime : String
  to_asset : String
  to_quantity : ℚ
  to_price_usd : Option ℚ
  from_asset : Option String
  from_quantity : Option ℚ
  from_price_usd : Option ℚ
  fees_usd : Option ℚ
  notes : Option String

/-- The optional field is present and violates its per-field bound; `None`
vacuously passes, as in pydantic. -/
def optViolates {α : Type} (o : Option α) (p : α → Bool) : Bool :=
  match o with
  | none => false
  | some a => p a

/-- The pydantic pipeline for `AddTransactionInput`: the before-mode
validator uppercases `to_asset` and `from_asset`, `str_strip_whitespace=True`
strips every string field, and each declared per-field bound is checked
(`ge=1`, `min_length=1`/`max_length=10`, `ge=0`, `max_length=10`, `ge=0`,
`max_length=500`). The model has no model-level or cross-field validator:
nothing requires the `from_*` fields when `type` is `Swap`. (Model slack:
pydantic reports all failing fields at once; this model returns the first
in declaration order.) -/
def validateAddTransaction (r : AddTransactionRaw) :
    Except VErr AddTransactionInput :=
  if r.portfolio_id < 1 then .error ⟨"portfolio_id", "greater_than_equal"⟩
  else if (pyStrip (pyUpper r.to_asset)).length < 1 then
    .error ⟨"to_asset", "string_too_short"⟩
  else if 10 < (pyStrip (pyUpper r.to_asset)).length then
    .error ⟨"to_asset", "string_too_long"⟩
  else if r.to_quantity < 0 then .error ⟨"to_quantity", "greater_than_equal"⟩
  else if optViolates r.from_asset
      (fun s => decide (10 < (pyStrip (pyUpper s)).length)) then
    .error ⟨"from_asset", "string_too_long"⟩
  else if optViolates r.from_quantity (fun q => decide (q < 0)) then
    .error ⟨"from_quantity", "greater_than_equal"⟩
  else if optViolates r.notes (fun s => decide (500 < (pyStrip s).length)) then
    .error ⟨"notes", "string_too_long"⟩
  else .ok ⟨r.portfolio_id.toNat, r.type, pyStrip r.datetime,
    pyStrip (pyUpper r.to_asset), r.to_quantity, r.to_price_usd,
    r.from_asset.map (fun s => pyStrip (pyUpper s)), r.from_quantity,
    r.from_price_usd, r.fees_usd, r.notes.map pyStrip⟩

/-- **C6.** The Validation Layer accepts an add-transaction input of kind
Swap in which `from_asset`, `from_quantity` and `from_price_usd` are all
absent: when every per-field constraint is satisfied, validation succeeds
and the validated value still has every `from_*` field absent — the Swap
conditional requirement is documented but not enforced. -/
theorem C6_swap_fields_not_enforced (r : AddTransactionRaw)
    (hty : r.type = .swap) (hfa : r.from_asset = none)
    (hfq : r.from_quantity = none) (hfp : r.from_price_usd = none)
    (hpid : 1 ≤ r.portfolio_id)
    (hta1 : 1 ≤ (pyStrip (pyUpper r.to_asset)).length)
    (hta2 : (pyStrip (pyUpper r.to_asset)).length ≤ 10)
    (htq : 0 ≤ r.to_quantity)
    (hnotes : optViolates r.notes
      (fun s => decide (500 < (pyStrip s).length)) = false) :
    ∃ out, validateAddTransaction r = .ok out ∧ out.type = .swap ∧
      out.from_asset = none ∧ out.from_quantity = none ∧
      out.from_price_usd = none := by
  unfold validateAddTransaction
  rw [if_neg (by omega), if_neg (by omega), if_neg (by omega),
    if_neg (not_lt.mpr htq), hfa, hfq,
    if_neg (by simp [optViolates]), if_neg (by simp [optViolates]),
    if_neg (by simp [hnotes])]
  exact ⟨_, rfl, hty, rfl, rfl, hfp⟩

/-- Witness for C6: a concrete Swap with every `from_*` field absent
validates successfully. -/
theorem C6_swap_fields_not_enforced_witness :
    ∃ out, validateAddTransaction
        ⟨1, .swap, "2025-01-15T10:30:00Z", "BTC", 0, none, none, none, none,
          none, none⟩ = .ok out ∧
      out.type = .swap ∧ out.from_asset = none ∧ out.from_quantity = none ∧
      out.from_price_usd = none :=
  C6_swap_fields_not_enforced
    ⟨1, .swap, "2025-01-15T10:30:00Z", "BTC", 0, none, none, none, none,
      none, none⟩
    rfl rfl rfl rfl (by decide) (by decide) (by decide) (le_refl 0) rfl

end PortfolioMcp
